import Mathlib

/-!
Verification of `bert_multitask_learning/params.py` (class `BaseParams`).

The development shallowly embeds the operations of `BaseParams` in Lean:

* Python `dict`s are association lists `List (String × α)` with insertion-order
  semantics (`dictGet`, `dictSet`, `ddAdd` for `collections.defaultdict(float)`).
* Python strings/`str.split`/`'_'.join`/`sorted` are modelled on `String`
  (splitting is implemented structurally on the underlying character list so
  that everything evaluates by `decide`/`rfl`).
* Python numbers: `int` is `ℤ` (counts of data rows are `ℕ`), `float`
  arithmetic is modelled exactly by `ℚ` (Python's `int()` truncation toward
  zero is `pyIntTrunc`).
* Raised exceptions are `Except PyError`; an `Except.error` result means the
  Python call raised before assigning the attributes the claim is about.
* The object's attribute dictionary (`vars(self)`) is an insertion-ordered
  association list `Attrs`, and the filesystem seen by `to_json`/`from_json`/
  `get_data_info` is a path-indexed map `FS` whose files hold the decoded JSON
  value (a faithful view for JSON-serialisable values, which round-trip).
-/

/-! ## Association lists with Python `dict` semantics -/

/-- Lookup in a Python dict modelled as an insertion-ordered association list. -/
def dictGet {α : Type} (d : List (String × α)) (k : String) : Option α :=
  match d with
  | [] => none
  | (k', v) :: rest => if k' = k then some v else dictGet rest k

/-- Python `d[k] = v`: update the existing entry in place, otherwise append. -/
def dictSet {α : Type} (d : List (String × α)) (k : String) (v : α) :
    List (String × α) :=
  match d with
  | [] => [(k, v)]
  | (k', v') :: rest =>
      if k' = k then (k', v) :: rest else (k', v') :: dictSet rest k v

/-- Python `collections.defaultdict(float)` update `d[k] += x`. -/
def ddAdd (d : List (String × ℚ)) (k : String) (x : ℚ) : List (String × ℚ) :=
  match dictGet d k with
  | some v => dictSet d k (v + x)
  | none => d ++ [(k, x)]

/-- Keys of a dict, in insertion order. -/
def dictKeys {α : Type} (d : List (String × α)) : List String :=
  d.map Prod.fst

/-- Sum of the values of a dict (Python `sum(v for _, v in d.items())`). -/
def sumValues (d : List (String × ℚ)) : ℚ :=
  (d.map Prod.snd).sum

theorem dictGet_dictSet_self {α : Type} (d : List (String × α)) (k : String)
    (v : α) : dictGet (dictSet d k v) k = some v := by
  induction d with
  | nil => simp [dictGet, dictSet]
  | cons hd tl ih =>
      obtain ⟨k', v'⟩ := hd
      by_cases h : k' = k <;> simp [dictGet, dictSet, h, ih]

theorem dictGet_dictSet_ne {α : Type} (d : List (String × α)) (k k' : String)
    (v : α) (h : k' ≠ k) : dictGet (dictSet d k v) k' = dictGet d k' := by
  induction d with
  | nil => simp [dictGet, dictSet, Ne.symm h]
  | cons hd tl ih =>
      obtain ⟨k0, v0⟩ := hd
      by_cases h0 : k0 = k
      · subst h0
        simp [dictGet, dictSet, Ne.symm h]
      · by_cases h1 : k0 = k'
        · simp [dictGet, dictSet, h0, h1, h]
        · simp [dictGet, dictSet, h0, h1, ih]

theorem dictGet_append {α : Type} (d d' : List (String × α)) (k : String) :
    dictGet (d ++ d') k =
      match dictGet d k with
      | some v => some v
      | none => dictGet d' k := by
  induction d with
  | nil => simp [dictGet]
  | cons hd tl ih =>
      obtain ⟨k0, v0⟩ := hd
      by_cases h : k0 = k <;> simp [dictGet, h, ih]

theorem dictGet_ddAdd_self (d : List (String × ℚ)) (k : String) (x : ℚ) :
    dictGet (ddAdd d k x) k = some ((dictGet d k).getD 0 + x) := by
  unfold ddAdd
  cases h : dictGet d k with
  | some v => simp [dictGet_dictSet_self, h]
  | none => simp [dictGet_append, h, dictGet]

theorem dictGet_ddAdd_ne (d : List (String × ℚ)) (k k' : String) (x : ℚ)
    (h : k' ≠ k) : dictGet (ddAdd d k x) k' = dictGet d k' := by
  unfold ddAdd
  cases h0 : dictGet d k with
  | some v => simp [dictGet_dictSet_ne _ _ _ _ h]
  | none =>
      rw [dictGet_append]
      cases h1 : dictGet d k' with
      | some v => simp
      | none => simp [dictGet, Ne.symm h]

theorem sumValues_dictSet (d : List (String × ℚ)) (k : String) (v w : ℚ)
    (h : dictGet d k = some v) :
    sumValues (dictSet d k w) = sumValues d - v + w := by
  induction d with
  | nil => simp [dictGet] at h
  | cons hd tl ih =>
      obtain ⟨k0, v0⟩ := hd
      by_cases h0 : k0 = k
      · simp [dictGet, h0] at h
        subst h
        simp [dictSet, h0, sumValues]
        ring
      · simp [dictGet, h0] at h
        simp [dictSet, h0, sumValues] at ih ⊢
        rw [ih h]
        ring

theorem sumValues_ddAdd (d : List (String × ℚ)) (k : String) (x : ℚ) :
    sumValues (ddAdd d k x) = sumValues d + x := by
  unfold ddAdd
  cases h : dictGet d k with
  | some v =>
      show sumValues (dictSet d k (v + x)) = sumValues d + x
      rw [sumValues_dictSet d k v (v + x) h]
      ring
  | none =>
      show sumValues (d ++ [(k, x)]) = sumValues d + x
      simp [sumValues]

/-! ## Python string primitives -/

/-- Split a character list at every character satisfying `p`.  This is the
semantics of `re.split` with a character class, and of `str.split(c)` when `p`
matches only `c`; it always returns at least one (possibly empty) group. -/
def splitCharsL (p : Char → Bool) : List Char → List (List Char)
  | [] => [[]]
  | c :: cs =>
      if p c then [] :: splitCharsL p cs
      else
        match splitCharsL p cs with
        | [] => [[c]]
        | g :: gs => (c :: g) :: gs

/-- Python `s.split(c)` / `re.split`, on `String`. -/
def splitStr (p : Char → Bool) (s : String) : List String :=
  (splitCharsL p s.data).map fun l => ⟨l⟩

/-- Python `sep.join(parts)`. -/
def pyJoin (sep : String) : List String → String
  | [] => ""
  | [s] => s
  | s :: rest => s ++ sep ++ pyJoin sep rest

/-- Python `c in s` for a single character. -/
def strContainsChar (s : String) (c : Char) : Bool :=
  s.data.any (· = c)

/-- `os.path.join` for two components (POSIX semantics). -/
def osJoin (a b : String) : String :=
  if b.data.head? = some '/' then b
  else if a = "" then b
  else if a.data.getLast? = some '/' then a ++ b
  else a ++ "/" ++ b

/-- Lexicographic `≤` on character lists, computed structurally (Python
compares strings by code points). -/
def charsLe : List Char → List Char → Bool
  | [], _ => true
  | _ :: _, [] => false
  | a :: as, b :: bs =>
      if a < b then true
      else if b < a then false
      else charsLe as bs

/-- Python string comparison `a <= b`. -/
def strLe (a b : String) : Bool :=
  charsLe a.data b.data

/-- Insert into a sorted list (the elementary step of a stable sort). -/
def insertStr (x : String) : List String → List String
  | [] => [x]
  | y :: ys => if strLe x y then x :: y :: ys else y :: insertStr x ys

/-- Python `sorted` on strings: a stable ascending sort.  On the linear order
of strings the sorted permutation is unique, so insertion sort models it. -/
def pySorted (l : List String) : List String :=
  l.foldr insertStr []

theorem charsLe_iff (as bs : List Char) :
    charsLe as bs = true ↔ ¬ List.Lex (· < ·) bs as := by
  induction as generalizing bs with
  | nil =>
      cases bs <;> simp [charsLe, List.Lex.not_nil_right]
  | cons a as ih =>
      cases bs with
      | nil =>
          simp only [charsLe, Bool.false_eq_true, false_iff, not_not]
          exact List.Lex.nil
      | cons b bs =>
          show (if a < b then true else if b < a then false
              else charsLe as bs) = true ↔ _
          rcases lt_trichotomy a b with h | h | h
          · rw [if_pos h]
            simp only [true_iff]
            intro hlex
            cases hlex with
            | rel h' => exact absurd h' (lt_asymm h)
            | cons h' => exact absurd rfl (ne_of_gt h)
          · subst h
            rw [if_neg (lt_irrefl a), if_neg (lt_irrefl a), ih]
            constructor
            · intro hx hlex
              cases hlex with
              | rel h' => exact absurd h' (lt_irrefl a)
              | cons h' => exact hx h'
            · intro hx hlex
              exact hx (List.Lex.cons hlex)
          · rw [if_neg (lt_asymm h), if_pos h]
            simp only [Bool.false_eq_true, false_iff, not_not]
            exact List.Lex.rel h

theorem strLe_iff (a b : String) : strLe a b = true ↔ a ≤ b := by
  rw [strLe, charsLe_iff, ← String.toList, ← String.toList,
    String.le_iff_toList_le, ← not_lt]
  exact Iff.rfl

theorem insertStr_perm (x : String) (l : List String) :
    (insertStr x l).Perm (x :: l) := by
  induction l with
  | nil => simp [insertStr]
  | cons y ys ih =>
      by_cases h : strLe x y = true
      · simp [insertStr, h]
      · simp only [insertStr, h, if_false]
        exact (ih.cons y).trans (List.Perm.swap x y ys)

theorem pySorted_perm (l : List String) : (pySorted l).Perm l := by
  induction l with
  | nil => simp [pySorted]
  | cons a l ih =>
      show (insertStr a (pySorted l)).Perm (a :: l)
      exact (insertStr_perm a (pySorted l)).trans (ih.cons a)

theorem sorted_insertStr (x : String) (l : List String)
    (h : l.Sorted (· ≤ ·)) : (insertStr x l).Sorted (· ≤ ·) := by
  induction l with
  | nil => simp [insertStr]
  | cons y ys ih =>
      rw [List.sorted_cons] at h
      by_cases hxy : strLe x y = true
      · rw [insertStr, if_pos hxy, List.sorted_cons]
        refine ⟨?_, List.sorted_cons.2 h⟩
        intro b hb
        rcases List.mem_cons.1 hb with hb | hb
        · exact hb ▸ (strLe_iff x y).1 hxy
        · exact le_trans ((strLe_iff x y).1 hxy) (h.1 b hb)
      · rw [insertStr, if_neg hxy, List.sorted_cons]
        refine ⟨?_, ih h.2⟩
        intro b hb
        have hb' := (insertStr_perm x ys).mem_iff.1 hb
        rcases List.mem_cons.1 hb' with hb1 | hb1
        · rw [hb1]
          exact le_of_not_le fun hc => hxy ((strLe_iff x y).2 hc)
        · exact h.1 b hb1

theorem pySorted_sorted (l : List String) :
    (pySorted l).Sorted (· ≤ ·) := by
  induction l with
  | nil => simp [pySorted]
  | cons a l ih => exact sorted_insertStr a (pySorted l) ih

theorem splitCharsL_ne_nil (p : Char → Bool) (cs : List Char) :
    splitCharsL p cs ≠ [] := by
  cases cs with
  | nil => simp [splitCharsL]
  | cons c cs =>
      by_cases h : p c
      · simp [splitCharsL, h]
      · simp only [splitCharsL, h]
        cases splitCharsL p cs <;> simp

theorem splitStr_ne_nil (p : Char → Bool) (s : String) :
    splitStr p s ≠ [] := by
  simp [splitStr, splitCharsL_ne_nil]

/-- A chunk that contains no `&` is its own single `&`-group. -/
theorem splitCharsL_eq_self_of_not_mem (p : Char → Bool) (cs : List Char)
    (h : cs.any p = false) : splitCharsL p cs = [cs] := by
  induction cs with
  | nil => simp [splitCharsL]
  | cons c cs ih =>
      simp only [List.any_cons, Bool.or_eq_false_iff] at h
      simp [splitCharsL, h.1, ih h.2]

/-- Splitting at `p₁ ∨ p₂` refines splitting at `p₁` by re-splitting each
group at `p₂` (the bridge between `re.split(r'[&|]', s)` and
`s.split('|')` followed by `.split('&')` on every chunk). -/
theorem splitCharsL_or (p₁ p₂ : Char → Bool) (cs : List Char) :
    splitCharsL (fun c => p₁ c || p₂ c) cs =
      (splitCharsL p₁ cs).flatMap (splitCharsL p₂) := by
  induction cs with
  | nil => simp [splitCharsL]
  | cons c cs ih =>
      by_cases h1 : p₁ c
      · simp [splitCharsL, h1, ih]
      · by_cases h2 : p₂ c
        · simp only [splitCharsL, h1, h2, Bool.or_true, Bool.or_false,
            if_true, if_false, ih]
          cases hs : splitCharsL p₁ cs with
          | nil => exact absurd hs (splitCharsL_ne_nil p₁ cs)
          | cons g gs => simp [splitCharsL, h2]
        · simp only [splitCharsL, h1, h2, Bool.or_false, if_false, ih]
          cases hs : splitCharsL p₁ cs with
          | nil => exact absurd hs (splitCharsL_ne_nil p₁ cs)
          | cons g gs =>
              simp only [List.flatMap_cons]
              cases hg : splitCharsL p₂ g with
              | nil => exact absurd hg (splitCharsL_ne_nil p₂ g)
              | cons h hs' => simp [splitCharsL, h2, hg]

/-! ## Exceptions -/

/-- The Python exceptions the embedded code can raise. -/
inductive PyError
  | valueError
  | keyError
  | typeError
  | attributeError
  | fileNotFoundError
  | zeroDivisionError
  | notImplementedError
  deriving DecidableEq, Repr

/-! ## `BaseParams.parse_problem_string` (params.py lines 347-386) -/

/-- Loop body of the `&` branch of `parse_problem_string`: builds the chunk's
dict (`problem_type[problem] = self.problem_type[problem]`); `none` models the
`KeyError` raised on an unregistered problem name. -/
def chunkTypeDict (pt : String → Option String) :
    List (String × String) → List String → Option (List (String × String))
  | d, [] => some d
  | d, n :: ns =>
      match pt n with
      | none => none
      | some t => chunkTypeDict pt (dictSet d n t) ns

/-- Body of `for flag_chunk in flag_string.split('|')`: the dict appended to
`run_problem_list` and the group appended to `problem_chunk`. -/
def parseChunk (pt : String → Option String) (fc : String) :
    Option (List (String × String) × List String) :=
  if strContainsChar fc '&' = false then
    match pt fc with
    | none => none
    | some t => some (dictSet [] fc t, [fc])
  else
    match chunkTypeDict pt [] (splitStr (· = '&') fc) with
    | none => none
    | some d => some (d, splitStr (· = '&') fc)

/-- The whole loop of `parse_problem_string`, left to right over the
`'|'`-chunks. -/
def parseChunks (pt : String → Option String) :
    List String → Option (List (List (String × String)) × List (List String))
  | [] => some ([], [])
  | fc :: rest =>
      match parseChunk pt fc with
      | none => none
      | some (d, g) =>
          match parseChunks pt rest with
          | none => none
          | some (rpl, pc) => some (d :: rpl, g :: pc)

/-- `BaseParams.parse_problem_string`.  The source returns
`(problem_list, problem_chunk)` and stores `run_problem_list` on `self`; the
embedding returns the triple `(problem_list, problem_chunk, run_problem_list)`
(`problem_str` and the `train_problem` default, which the source also stores
on `self`, are handled by the caller in the attribute-level model below).
`pt` is `self.problem_type`; `none` models the `KeyError` raised on a problem
name that was never added.  `problem_list` is
`sorted(re.split(r'[&|]', flag_string))`. -/
def parse_problem_string (pt : String → Option String) (flag_string : String) :
    Option (List String × List (List String) × List (List (String × String))) :=
  match parseChunks pt (splitStr (· = '|') flag_string) with
  | none => none
  | some (rpl, pc) =>
      some (pySorted (splitStr (fun c => c = '&' || c = '|') flag_string),
        pc, rpl)

theorem splitStr_eq_self_of_no_amp (fc : String)
    (h : strContainsChar fc '&' = false) :
    splitStr (· = '&') fc = [fc] := by
  unfold splitStr
  rw [splitCharsL_eq_self_of_not_mem _ _ h]
  rfl

/-- `re.split(r'[&|]', s)` equals splitting on `'|'` and re-splitting every
chunk on `'&'`. -/
theorem splitStr_or (s : String) :
    splitStr (fun c => c = '&' || c = '|') s =
      (splitStr (· = '|') s).flatMap (splitStr (· = '&')) := by
  have hp : (fun c => (c = '&' : Bool) || (c = '|' : Bool)) =
      fun c => (c = '|' : Bool) || (c = '&' : Bool) := by
    funext c
    exact Bool.or_comm _ _
  unfold splitStr
  rw [hp, splitCharsL_or]
  rw [List.map_flatMap, List.flatMap_map]

theorem chunkTypeDict_total (pt : String → Option String) (ns : List String)
    (d : List (String × String)) (h : ∀ n ∈ ns, (pt n).isSome) :
    ∃ d', chunkTypeDict pt d ns = some d' := by
  induction ns generalizing d with
  | nil => exact ⟨d, rfl⟩
  | cons n ns ih =>
      have hn := h n (List.mem_cons_self n ns)
      cases hpt : pt n with
      | none => rw [hpt] at hn; simp at hn
      | some t =>
          simp only [chunkTypeDict, hpt]
          exact ih (dictSet d n t) fun m hm => h m (List.mem_cons_of_mem n hm)

theorem chunkTypeDict_lookup (pt : String → Option String) (ns : List String)
    (d d' : List (String × String)) (h : chunkTypeDict pt d ns = some d')
    (k : String) : dictGet d' k = if k ∈ ns then pt k else dictGet d k := by
  induction ns generalizing d with
  | nil =>
      simp only [chunkTypeDict, Option.some_inj] at h
      subst h
      simp
  | cons n ns ih =>
      cases hpt : pt n with
      | none => simp [chunkTypeDict, hpt] at h
      | some t =>
          simp only [chunkTypeDict, hpt] at h
          have hrec := ih (dictSet d n t) h
          by_cases hns : k ∈ ns
          · simp [hns, List.mem_cons_of_mem, hrec]
          · by_cases hkn : k = n
            · subst hkn
              simp only [hns, if_false] at hrec
              rw [hrec, dictGet_dictSet_self]
              simp [hpt]
            · have : ¬ k ∈ n :: ns := by
                simp [hkn, hns]
              simp only [hns, if_false] at hrec
              rw [hrec, dictGet_dictSet_ne _ _ _ _ hkn]
              simp [this]

theorem parseChunk_spec (pt : String → Option String) (fc : String)
    (h : ∀ n ∈ splitStr (· = '&') fc, (pt n).isSome) :
    ∃ d, parseChunk pt fc = some (d, splitStr (· = '&') fc) ∧
      ∀ k, dictGet d k = if k ∈ splitStr (· = '&') fc then pt k else none := by
  by_cases hamp : strContainsChar fc '&' = false
  · have hsplit := splitStr_eq_self_of_no_amp fc hamp
    have hfc : (pt fc).isSome := h fc (by rw [hsplit]; exact List.mem_singleton_self fc)
    cases hpt : pt fc with
    | none => rw [hpt] at hfc; simp at hfc
    | some t =>
        refine ⟨dictSet [] fc t, ?_, ?_⟩
        · rw [parseChunk, if_pos hamp, hpt, hsplit]
        · intro k
          rw [hsplit]
          by_cases hk : k = fc
          · subst hk
            simp [dictSet, dictGet, hpt]
          · simp [dictSet, dictGet, hk, Ne.symm hk]
  · obtain ⟨d, hd⟩ := chunkTypeDict_total pt (splitStr (· = '&') fc) [] h
    refine ⟨d, ?_, ?_⟩
    · rw [parseChunk, if_neg hamp, hd]
    · intro k
      rw [chunkTypeDict_lookup pt _ [] d hd k]
      simp [dictGet]

theorem parseChunks_spec (pt : String → Option String) (chunks : List String)
    (h : ∀ fc ∈ chunks, ∀ n ∈ splitStr (· = '&') fc, (pt n).isSome) :
    ∃ rpl, parseChunks pt chunks = some (rpl, chunks.map (splitStr (· = '&'))) ∧
      List.Forall₂ (fun d g => ∀ k, dictGet d k = if k ∈ g then pt k else none)
        rpl (chunks.map (splitStr (· = '&'))) := by
  induction chunks with
  | nil => exact ⟨[], rfl, List.Forall₂.nil⟩
  | cons fc rest ih =>
      obtain ⟨d, hd, hdk⟩ :=
        parseChunk_spec pt fc (h fc (List.mem_cons_self fc rest))
      obtain ⟨rpl, hrpl, hall⟩ :=
        ih fun fc' hfc' => h fc' (List.mem_cons_of_mem fc hfc')
      refine ⟨d :: rpl, ?_, List.Forall₂.cons hdk hall⟩
      simp only [parseChunks, hd, hrpl]
      rfl

/-- **C1**: for every flag string, `parse_problem_string` splits it on `'|'`
into chunks and each chunk on `'&'` into problem names; `problem_list` is the
sorted list of all problem names occurring in the string, `problem_chunk` is
the list of per-`'|'` groups in their original order, and `run_problem_list`
is one dict per chunk mapping each problem name of that chunk to its
registered type in `problem_type` (precondition: every name occurring in the
string was previously registered). -/
theorem parse_problem_string_spec (pt : String → Option String)
    (flag_string : String)
    (hreg : ∀ n ∈ splitStr (fun c => c = '&' || c = '|') flag_string,
      (pt n).isSome) :
    ∃ pl pc rpl, parse_problem_string pt flag_string = some (pl, pc, rpl) ∧
      pc = (splitStr (· = '|') flag_string).map (splitStr (· = '&')) ∧
      pl.Sorted (· ≤ ·) ∧ pl.Perm pc.flatten ∧
      List.Forall₂ (fun d g => ∀ k, dictGet d k = if k ∈ g then pt k else none)
        rpl pc := by
  have hchunks : ∀ fc ∈ splitStr (· = '|') flag_string,
      ∀ n ∈ splitStr (· = '&') fc, (pt n).isSome := by
    intro fc hfc n hn
    apply hreg
    rw [splitStr_or]
    exact List.mem_flatMap.2 ⟨fc, hfc, hn⟩
  obtain ⟨rpl, hrpl, hall⟩ := parseChunks_spec pt _ hchunks
  refine ⟨pySorted (splitStr (fun c => c = '&' || c = '|') flag_string),
    (splitStr (· = '|') flag_string).map (splitStr (· = '&')), rpl, ?_, rfl,
    pySorted_sorted _, ?_, hall⟩
  · rw [parse_problem_string, hrpl]
  · refine (pySorted_perm _).trans ?_
    rw [splitStr_or, List.flatMap_def]

/-- A concrete registered-problems table used by the witnesses below. -/
def sampleProblemTypes : List (String × String) :=
  [("cws", "seq_tag"), ("POS", "seq_tag"), ("weibo_ner", "seq_tag"),
    ("weibo_cws", "seq_tag"), ("pre", "pretrain"), ("cls_a", "cls")]

/-- Witness for C1: the docstring example `cws|POS|weibo_ner&weibo_cws`, whose
problem names are all registered in `sampleProblemTypes`. -/
theorem parse_problem_string_spec_witness :
    (∀ n ∈ splitStr (fun c => c = '&' || c = '|') "cws|POS|weibo_ner&weibo_cws",
      (dictGet sampleProblemTypes n).isSome) ∧
    (∃ pl pc rpl,
      parse_problem_string (dictGet sampleProblemTypes)
        "cws|POS|weibo_ner&weibo_cws" = some (pl, pc, rpl) ∧
      pc = (splitStr (· = '|') "cws|POS|weibo_ner&weibo_cws").map
        (splitStr (· = '&')) ∧
      pl.Sorted (· ≤ ·) ∧ pl.Perm pc.flatten ∧
      List.Forall₂
        (fun d g => ∀ k, dictGet d k =
          if k ∈ g then dictGet sampleProblemTypes k else none) rpl pc) :=
  ⟨by decide, parse_problem_string_spec (dictGet sampleProblemTypes)
    "cws|POS|weibo_ner&weibo_cws" (by decide)⟩

/-! ## `BaseParams.add_problem` (params.py lines 153-175) -/

/-- The accepted problem types (params.py lines 167-168). -/
def validProblemTypes : List String :=
  ["cls", "seq_tag", "seq2seq_tag", "seq2seq_text", "multi_cls", "pretrain"]

/-- The two registration dicts of `BaseParams` touched by `add_problem`.  A
processing callable is modelled by an identifier (`Option ℕ`, `none` standing
for Python `None`): the embedded code only ever stores these values. -/
structure ProblemMaps where
  problem_type : List (String × String)
  read_data_fn : List (String × Option ℕ)
  deriving DecidableEq, Repr

/-- `BaseParams.add_problem`: validates the problem type, then registers the
problem in `problem_type` and `read_data_fn`.  The `problem_type` argument of
the source is named `ptype` here to keep the attribute name free. -/
def add_problem (m : ProblemMaps) (problem_name : String) (ptype : String)
    (processing_fn : Option ℕ) : Except PyError ProblemMaps :=
  if ptype ∉ validProblemTypes then .error .valueError
  else
    .ok { problem_type := dictSet m.problem_type problem_name ptype,
          read_data_fn := dictSet m.read_data_fn problem_name processing_fn }

/-- **C5**: `add_problem` raises `ValueError` exactly when the problem type is
not one of the six accepted strings; the error is raised before any
assignment, so on error both mappings are unchanged (the error result carries
no state), and on success both mappings gain exactly the entry for
`problem_name`. -/
theorem add_problem_spec (m : ProblemMaps) (problem_name ptype : String)
    (processing_fn : Option ℕ) :
    (add_problem m problem_name ptype processing_fn = .error .valueError ↔
      ptype ∉ validProblemTypes) ∧
    ∀ m', add_problem m problem_name ptype processing_fn = .ok m' →
      (∀ n, dictGet m'.problem_type n =
        if n = problem_name then some ptype else dictGet m.problem_type n) ∧
      (∀ n, dictGet m'.read_data_fn n =
        if n = problem_name then some processing_fn
        else dictGet m.read_data_fn n) := by
  by_cases hv : ptype ∈ validProblemTypes
  · constructor
    · rw [add_problem, if_neg (by simp [hv])]
      simp [hv]
    · intro m' hm'
      rw [add_problem, if_neg (by simp [hv])] at hm'
      simp only [Except.ok.injEq] at hm'
      subst hm'
      constructor
      · intro n
        by_cases hn : n = problem_name
        · subst hn
          simp [dictGet_dictSet_self]
        · simp [hn, dictGet_dictSet_ne _ _ _ _ hn]
      · intro n
        by_cases hn : n = problem_name
        · subst hn
          simp [dictGet_dictSet_self]
        · simp [hn, dictGet_dictSet_ne _ _ _ _ hn]
  · constructor
    · rw [add_problem, if_pos (by simp [hv])]
      simp [hv]
    · intro m' hm'
      rw [add_problem, if_pos (by simp [hv])] at hm'
      cases hm'

/-- Witness for C5: registering `cws` as `seq_tag` succeeds and extends both
mappings; the type `makes_no_sense` is rejected with `ValueError`. -/
theorem add_problem_spec_witness :
    (add_problem ⟨[], []⟩ "cws" "seq_tag" none =
      .ok ⟨[("cws", "seq_tag")], [("cws", none)]⟩) ∧
    (∀ n, dictGet ([("cws", "seq_tag")]) n =
      if n = "cws" then some ("seq_tag")
      else dictGet ([] : List (String × String)) n) ∧
    (add_problem ⟨[], []⟩ "cws" "makes_no_sense" none =
      .error .valueError) :=
  ⟨rfl,
    fun n => ((add_problem_spec ⟨[], []⟩ "cws" "seq_tag" none).2
      ⟨[("cws", "seq_tag")], [("cws", none)]⟩ rfl).1 n,
    (add_problem_spec ⟨[], []⟩ "cws" "makes_no_sense" none).1.2 (by decide)⟩

/-! ## `BaseParams.assign_problem` training schedule (params.py lines 237-252) -/

/-- Python `int()` applied to a float: truncation toward zero.  Floats are
modelled as exact rationals. -/
def pyIntTrunc (q : ℚ) : ℤ :=
  if 0 ≤ q then ⌊q⌋ else -⌊-q⌋

/-- The `dup_fac` loop of `assign_problem` (lines 239-244): walk
`problem_list`, setting `dup_fac` to `1` at every non-`pretrain` problem and
breaking with `dup_fac = dupe_factor` at the first `pretrain` problem.
`none` models the `NameError` on an empty problem list (`dup_fac` never
bound), which cannot happen for a parsed problem list. -/
def computeDupFac (pt : String → Option String) (dupe_factor : ℕ) :
    List String → Option ℕ
  | [] => none
  | [p] => some (if pt p = some ("pretrain") then dupe_factor else 1)
  | p :: q :: rest =>
      if pt p = some ("pretrain") then some dupe_factor
      else computeDupFac pt dupe_factor (q :: rest)

/-- The values assigned by the non-predicting tail of `assign_problem`. -/
structure TrainingSchedule where
  shuffle_buffer : ℕ
  train_steps : ℤ
  train_steps_per_epoch : ℤ
  num_warmup_steps : ℤ
  lr : ℚ
  deriving DecidableEq, Repr

/-- The `if not predicting:` tail of `assign_problem` (lines 237-252): sets
`shuffle_buffer`, computes `dup_fac`, and derives `train_steps`,
`train_steps_per_epoch`, `num_warmup_steps` and the linearly scaled `lr`.
`none` models `ZeroDivisionError` (zero `batch_size` or `train_epoch`) and
the `NameError` of an empty problem list; the float literal `0.1` is the
exact rational `1 / 10`. -/
def assignSchedule (pt : String → Option String) (problem_list : List String)
    (data_num train_epoch dupe_factor batch_size gpu : ℕ) (init_lr : ℚ) :
    Option TrainingSchedule :=
  match computeDupFac pt dupe_factor problem_list with
  | none => none
  | some dup_fac =>
      if batch_size * max 1 gpu = 0 ∨ train_epoch = 0 then none
      else
        let train_steps : ℤ :=
          pyIntTrunc ((data_num * train_epoch * dup_fac : ℚ) /
            ((batch_size * max 1 gpu : ℕ) : ℚ))
        some { shuffle_buffer := min 200000 data_num,
               train_steps := train_steps,
               train_steps_per_epoch :=
                 pyIntTrunc ((train_steps : ℚ) / (train_epoch : ℚ)),
               num_warmup_steps := pyIntTrunc ((1 / 10 : ℚ) * train_steps),
               lr := init_lr * gpu }

theorem pyIntTrunc_of_nonneg (q : ℚ) (h : 0 ≤ q) : pyIntTrunc q = ⌊q⌋ :=
  if_pos h

theorem computeDupFac_eq (pt : String → Option String) (dupe_factor : ℕ)
    (l : List String) (h : l ≠ []) :
    computeDupFac pt dupe_factor l =
      some (if l.any (fun p => pt p = some ("pretrain")) then dupe_factor
        else 1) := by
  induction l with
  | nil => exact absurd rfl h
  | cons p rest ih =>
      cases rest with
      | nil =>
          by_cases hp : pt p = some ("pretrain") <;>
            simp [computeDupFac, hp]
      | cons q rest' =>
          by_cases hp : pt p = some ("pretrain")
          · simp [computeDupFac, hp]
          · rw [show computeDupFac pt dupe_factor (p :: q :: rest') =
                computeDupFac pt dupe_factor (q :: rest') by
                  simp [computeDupFac, hp]]
            rw [ih (by simp)]
            simp [hp]

/-- **C4**: with `predicting=False`, `assign_problem` sets `train_steps` to
`floor(data_num * train_epoch * dup_fac / (batch_size * max(1, gpu)))` where
`dup_fac` is `dupe_factor` if some problem of the list has type `pretrain`
and `1` otherwise, `train_steps_per_epoch` to
`floor(train_steps / train_epoch)`, `num_warmup_steps` to
`floor(0.1 * train_steps)`, and `lr` to `init_lr * gpu`. -/
theorem assign_problem_schedule_spec (pt : String → Option String)
    (problem_list : List String)
    (data_num train_epoch dupe_factor batch_size gpu : ℕ) (init_lr : ℚ)
    (hpl : problem_list ≠ []) (hbs : 0 < batch_size) (hte : 0 < train_epoch) :
    ∃ s, assignSchedule pt problem_list data_num train_epoch dupe_factor
        batch_size gpu init_lr = some s ∧
      s.train_steps = ⌊(data_num * train_epoch *
        (if problem_list.any (fun p => pt p = some ("pretrain")) then
          dupe_factor else (1 : ℕ)) : ℚ) / ((batch_size * max 1 gpu : ℕ) : ℚ)⌋ ∧
      s.train_steps_per_epoch = ⌊(s.train_steps : ℚ) / (train_epoch : ℚ)⌋ ∧
      s.num_warmup_steps = ⌊(1 / 10 : ℚ) * (s.train_steps : ℚ)⌋ ∧
      s.lr = init_lr * gpu := by
  have hden : ¬ (batch_size * max 1 gpu = 0 ∨ train_epoch = 0) := by
    push_neg
    constructor
    · positivity
    · omega
  set q : ℚ := (data_num * train_epoch *
    (if problem_list.any (fun p => pt p = some ("pretrain")) then
      dupe_factor else (1 : ℕ)) : ℚ) / ((batch_size * max 1 gpu : ℕ) : ℚ)
    with hq
  have hq1 : (0 : ℚ) ≤ q := by
    rw [hq]
    apply div_nonneg <;> positivity
  have hts : (0 : ℚ) ≤ (pyIntTrunc q : ℚ) := by
    rw [pyIntTrunc_of_nonneg _ hq1]
    exact_mod_cast Int.floor_nonneg.2 hq1
  refine ⟨{ shuffle_buffer := min 200000 data_num,
            train_steps := pyIntTrunc q,
            train_steps_per_epoch :=
              pyIntTrunc ((pyIntTrunc q : ℚ) / (train_epoch : ℚ)),
            num_warmup_steps :=
              pyIntTrunc ((1 / 10 : ℚ) * (pyIntTrunc q : ℚ)),
            lr := init_lr * gpu }, ?_, ?_, ?_, ?_, rfl⟩
  · rw [assignSchedule, computeDupFac_eq pt dupe_factor problem_list hpl]
    show (if batch_size * max 1 gpu = 0 ∨ train_epoch = 0 then none else _) =
      some _
    rw [if_neg hden]
  · show pyIntTrunc q = ⌊q⌋
    exact pyIntTrunc_of_nonneg q hq1
  · show pyIntTrunc _ = _
    rw [pyIntTrunc_of_nonneg]
    apply div_nonneg hts
    positivity
  · show pyIntTrunc _ = _
    rw [pyIntTrunc_of_nonneg]
    apply mul_nonneg _ hts
    norm_num

/-- Witness for C4: one `pretrain` problem among two, `data_num = 6400`,
`train_epoch = 15`, `dupe_factor = 10`, `batch_size = 32`, `gpu = 2`. -/
theorem assign_problem_schedule_spec_witness :
    (["cws", "pre"] : List String) ≠ [] ∧ (0 : ℕ) < 32 ∧ (0 : ℕ) < 15 ∧
    ∃ s, assignSchedule (dictGet sampleProblemTypes) ["cws", "pre"]
        6400 15 10 32 2 (1 / 50000) = some s ∧
      s.train_steps = ⌊((6400 * 15 *
        (if (["cws", "pre"] : List String).any
          (fun p => dictGet sampleProblemTypes p = some ("pretrain")) then
          (10 : ℕ) else (1 : ℕ)) : ℚ)) / (((32 * max 1 2 : ℕ) : ℚ))⌋ ∧
      s.train_steps_per_epoch = ⌊(s.train_steps : ℚ) / ((15 : ℕ) : ℚ)⌋ ∧
      s.num_warmup_steps = ⌊(1 / 10 : ℚ) * (s.train_steps : ℚ)⌋ ∧
      s.lr = (1 / 50000 : ℚ) * ((2 : ℕ) : ℚ) :=
  ⟨by decide, by decide, by decide,
    assign_problem_schedule_spec (dictGet sampleProblemTypes) ["cws", "pre"]
      6400 15 10 32 2 (1 / 50000) (by decide) (by decide) (by decide)⟩

/-! ## `BaseParams.set_data_sampling_strategy` (params.py lines 568-614) -/

/-- `'_'.join(sorted(problem_list))`: the string key of a problem chunk.
Both `get_problem_chunk(as_str=True)` and the `data_balanced` loop compute
it this way. -/
def chunkKey (c : List String) : String :=
  pyJoin ("_") (pySorted c)

/-- Inner loop of the `data_balanced` branch for one chunk with key `k`:
`problem_chunk_data_num[str_per_chunk] += self.data_num_dict[problem]` for
every problem of the chunk; `none` models the `KeyError` of a problem
without a data count. -/
def addChunkCounts (dnd : String → Option ℕ) (k : String) :
    List (String × ℚ) → List String → Option (List (String × ℚ))
  | d, [] => some d
  | d, p :: ps =>
      match dnd p with
      | none => none
      | some n => addChunkCounts dnd k (ddAdd d k (n : ℚ)) ps

/-- The `data_balanced` accumulation over all chunks (lines 594-599). -/
def buildDataBalanced (dnd : String → Option ℕ) :
    List (String × ℚ) → List (List String) → Option (List (String × ℚ))
  | d, [] => some d
  | d, c :: cs =>
      match addChunkCounts dnd (chunkKey c) d c with
      | none => none
      | some d' => buildDataBalanced dnd d' cs

/-- The `problem_balanced` loop (lines 600-603):
`problem_chunk_data_num[str_per_chunk] = 1` for every chunk key. -/
def buildProblemBalanced (d : List (String × ℚ)) (keys : List String) :
    List (String × ℚ) :=
  keys.foldl (fun d' k => dictSet d' k 1) d

/-- The strategy dispatch of `set_data_sampling_strategy` (lines 593-607),
producing the un-normalised `problem_chunk_data_num` dict. -/
def samplingNumerators (problem_chunk : List (List String))
    (dnd : String → Option ℕ) (sampling_strategy : String) :
    Except PyError (List (String × ℚ)) :=
  if sampling_strategy = "data_balanced" then
    match buildDataBalanced dnd [] problem_chunk with
    | none => .error .keyError
    | some d => .ok d
  else if sampling_strategy = "problem_balanced" then
    .ok (buildProblemBalanced [] (problem_chunk.map chunkKey))
  else .error .valueError

/-- `BaseParams.set_data_sampling_strategy`.  `problem_chunk` is
`self.problem_chunk` (as produced by `parse_problem_string`) and `dnd` is
`self.data_num_dict`; the returned dict is what the source assigns to
`self.problem_sampling_weight_dict` and returns (an error result means the
attribute is not assigned).  A provided `sampling_strategy_fn` raises
`NotImplementedError` before anything else; an unknown strategy raises
`ValueError`; the normalisation `{k: v / sum_across_problems for ...}`
raises `ZeroDivisionError` when the accumulated dict is non-empty with zero
sum (over an empty dict the comprehension runs no division and returns
the empty dict). -/
def set_data_sampling_strategy (problem_chunk : List (List String))
    (dnd : String → Option ℕ) (sampling_strategy : String)
    (sampling_strategy_fn : Option Unit) :
    Except PyError (List (String × ℚ)) :=
  if sampling_strategy_fn.isSome then .error .notImplementedError
  else
    match samplingNumerators problem_chunk dnd sampling_strategy with
    | .error e => .error e
    | .ok d =>
        if d = [] then .ok []
        else if sumValues d = 0 then .error .zeroDivisionError
        else .ok (d.map fun kv => (kv.1, kv.2 / sumValues d))

/-- Data count of one problem as a rational; `0` for a missing key (only used
under the hypothesis that every problem has a count). -/
def countQ (dnd : String → Option ℕ) (p : String) : ℚ :=
  (((dnd p).getD 0 : ℕ) : ℚ)

/-- Sum of the data counts of one chunk. -/
def chunkSumQ (dnd : String → Option ℕ) (c : List String) : ℚ :=
  (c.map (countQ dnd)).sum

/-- Grand total of the data counts of all chunks. -/
def totalQ (dnd : String → Option ℕ) (cs : List (List String)) : ℚ :=
  (cs.map (chunkSumQ dnd)).sum

/-- Accumulated count of all chunks sharing the key `k`. -/
def accSumQ (dnd : String → Option ℕ) (cs : List (List String)) (k : String) :
    ℚ :=
  ((cs.filter (fun c => chunkKey c = k)).map (chunkSumQ dnd)).sum

theorem countQ_nonneg (dnd : String → Option ℕ) (p : String) :
    0 ≤ countQ dnd p := by
  unfold countQ
  positivity

theorem chunkSumQ_nonneg (dnd : String → Option ℕ) (c : List String) :
    0 ≤ chunkSumQ dnd c :=
  List.sum_nonneg fun x hx => by
    obtain ⟨p, _, rfl⟩ := List.mem_map.1 hx
    exact countQ_nonneg dnd p

theorem totalQ_nonneg (dnd : String → Option ℕ) (cs : List (List String)) :
    0 ≤ totalQ dnd cs :=
  List.sum_nonneg fun x hx => by
    obtain ⟨c, _, rfl⟩ := List.mem_map.1 hx
    exact chunkSumQ_nonneg dnd c

theorem accSumQ_nonneg (dnd : String → Option ℕ) (cs : List (List String))
    (k : String) : 0 ≤ accSumQ dnd cs k :=
  List.sum_nonneg fun x hx => by
    obtain ⟨c, _, rfl⟩ := List.mem_map.1 hx
    exact chunkSumQ_nonneg dnd c

theorem accSumQ_cons (dnd : String → Option ℕ) (c : List String)
    (cs : List (List String)) (k : String) :
    accSumQ dnd (c :: cs) k =
      (if chunkKey c = k then chunkSumQ dnd c else 0) + accSumQ dnd cs k := by
  by_cases h : chunkKey c = k <;> simp [accSumQ, List.filter_cons, h]

theorem accSumQ_eq_zero (dnd : String → Option ℕ) (cs : List (List String))
    (k : String) (h : k ∉ cs.map chunkKey) : accSumQ dnd cs k = 0 := by
  unfold accSumQ
  have : cs.filter (fun c => chunkKey c = k) = [] := by
    rw [List.filter_eq_nil_iff]
    intro c hc
    simp only [decide_eq_true_eq]
    exact fun hk => h (List.mem_map.2 ⟨c, hc, hk⟩)
  rw [this]
  rfl

/-- Total-function form of the `data_balanced` inner loop. -/
def foldAddChunk (dnd : String → Option ℕ) (k : String)
    (d : List (String × ℚ)) (c : List String) : List (String × ℚ) :=
  c.foldl (fun d' p => ddAdd d' k (countQ dnd p)) d

theorem addChunkCounts_eq_foldAdd (dnd : String → Option ℕ) (k : String)
    (c : List String) :
    ∀ d, (∀ p ∈ c, (dnd p).isSome) →
      addChunkCounts dnd k d c = some (foldAddChunk dnd k d c) := by
  induction c with
  | nil => intro d _; rfl
  | cons p ps ih =>
      intro d h
      have hp := h p (List.mem_cons_self p ps)
      cases hn : dnd p with
      | none => rw [hn] at hp; simp at hp
      | some n =>
          have : countQ dnd p = (n : ℚ) := by simp [countQ, hn]
          simp only [addChunkCounts, hn, foldAddChunk, List.foldl_cons]
          rw [← this]
          exact ih (ddAdd d k (countQ dnd p))
            fun p' hp' => h p' (List.mem_cons_of_mem p hp')

theorem dictGet_foldAddChunk_ne (dnd : String → Option ℕ) (k k' : String)
    (hk : k' ≠ k) (c : List String) :
    ∀ d, dictGet (foldAddChunk dnd k d c) k' = dictGet d k' := by
  induction c with
  | nil => intro d; rfl
  | cons p ps ih =>
      intro d
      show dictGet (foldAddChunk dnd k (ddAdd d k (countQ dnd p)) ps) k' = _
      rw [ih, dictGet_ddAdd_ne _ _ _ _ hk]

theorem dictGet_foldAddChunk_self (dnd : String → Option ℕ) (k : String)
    (c : List String) (hc : c ≠ []) :
    ∀ d, dictGet (foldAddChunk dnd k d c) k =
      some ((dictGet d k).getD 0 + chunkSumQ dnd c) := by
  induction c with
  | nil => exact absurd rfl hc
  | cons p ps ih =>
      intro d
      show dictGet (foldAddChunk dnd k (ddAdd d k (countQ dnd p)) ps) k = _
      cases ps with
      | nil =>
          show dictGet (ddAdd d k (countQ dnd p)) k = _
          rw [dictGet_ddAdd_self]
          simp [chunkSumQ]
      | cons q qs =>
          rw [ih (by simp) (ddAdd d k (countQ dnd p)), dictGet_ddAdd_self]
          simp only [Option.getD_some, chunkSumQ, List.map_cons,
            List.sum_cons]
          show some _ = some _
          rw [Option.some_inj]
          ring

theorem sumValues_foldAddChunk (dnd : String → Option ℕ) (k : String)
    (c : List String) :
    ∀ d, sumValues (foldAddChunk dnd k d c) =
      sumValues d + chunkSumQ dnd c := by
  induction c with
  | nil => intro d; simp [foldAddChunk, chunkSumQ]
  | cons p ps ih =>
      intro d
      show sumValues (foldAddChunk dnd k (ddAdd d k (countQ dnd p)) ps) = _
      rw [ih, sumValues_ddAdd]
      simp only [chunkSumQ, List.map_cons, List.sum_cons]
      ring

theorem buildDataBalanced_spec (dnd : String → Option ℕ) :
    ∀ (cs : List (List String)) (d : List (String × ℚ)),
      (∀ p ∈ cs.flatten, (dnd p).isSome) → (∀ c ∈ cs, c ≠ []) →
      ∃ d', buildDataBalanced dnd d cs = some d' ∧
        (∀ k, dictGet d' k =
          if k ∈ cs.map chunkKey then
            some ((dictGet d k).getD 0 + accSumQ dnd cs k)
          else dictGet d k) ∧
        sumValues d' = sumValues d + totalQ dnd cs := by
  intro cs
  induction cs with
  | nil =>
      intro d _ _
      refine ⟨d, rfl, ?_, by simp [totalQ]⟩
      intro k
      simp [accSumQ]
  | cons c cs ih =>
      intro d h1 hne
      have hc : ∀ p ∈ c, (dnd p).isSome := fun p hp =>
        h1 p (by simp only [List.flatten_cons, List.mem_append]; exact Or.inl hp)
      have hcs1 : ∀ p ∈ cs.flatten, (dnd p).isSome := fun p hp =>
        h1 p (by simp only [List.flatten_cons, List.mem_append]; exact Or.inr hp)
      have hcne : c ≠ [] := hne c (List.mem_cons_self c cs)
      obtain ⟨d', hbuild, hget, hsum⟩ :=
        ih (foldAddChunk dnd (chunkKey c) d c) hcs1
          (fun c' hc' => hne c' (List.mem_cons_of_mem c hc'))
      refine ⟨d', ?_, ?_, ?_⟩
      · show buildDataBalanced dnd d (c :: cs) = some d'
        simp only [buildDataBalanced]
        rw [addChunkCounts_eq_foldAdd dnd (chunkKey c) c d hc]
        exact hbuild
      · intro k
        rw [hget k]
        by_cases hck : chunkKey c = k
        · have hmem : k ∈ (c :: cs).map chunkKey := by
            simp [hck]
          rw [if_pos hmem, accSumQ_cons, if_pos hck]
          by_cases hmem2 : k ∈ cs.map chunkKey
          · rw [if_pos hmem2]
            rw [← hck, dictGet_foldAddChunk_self dnd (chunkKey c) c hcne d]
            rw [hck]
            simp only [Option.getD_some, Option.some_inj]
            ring
          · rw [if_neg hmem2, ← hck,
              dictGet_foldAddChunk_self dnd (chunkKey c) c hcne d, hck,
              accSumQ_eq_zero dnd cs k hmem2]
            simp
        · have hne2 : k ≠ chunkKey c := fun h => hck h.symm
          rw [dictGet_foldAddChunk_ne dnd (chunkKey c) k hne2 c d]
          by_cases hmem2 : k ∈ cs.map chunkKey
          · have hmem : k ∈ (c :: cs).map chunkKey := by
              simp only [List.map_cons, List.mem_cons]
              exact Or.inr hmem2
            rw [if_pos hmem2, if_pos hmem, accSumQ_cons, if_neg hck,
              zero_add]
          · have hmem : k ∉ (c :: cs).map chunkKey := by
              simp only [List.map_cons, List.mem_cons, not_or]
              exact ⟨fun h => hck h.symm, hmem2⟩
            rw [if_neg hmem2, if_neg hmem]
      · rw [hsum, sumValues_foldAddChunk]
        show _ = sumValues d + totalQ dnd (c :: cs)
        simp only [totalQ, List.map_cons, List.sum_cons]
        ring

theorem dictGet_mapValues (f : ℚ → ℚ) (d : List (String × ℚ)) (k : String) :
    dictGet (d.map fun kv => (kv.1, f kv.2)) k = (dictGet d k).map f := by
  induction d with
  | nil => rfl
  | cons hd tl ih =>
      obtain ⟨k0, v0⟩ := hd
      by_cases h : k0 = k <;> simp [dictGet, h, ih]

theorem sumValues_mapValues_div (d : List (String × ℚ)) (s : ℚ) :
    sumValues (d.map fun kv => (kv.1, kv.2 / s)) = sumValues d / s := by
  induction d with
  | nil => simp [sumValues]
  | cons hd tl ih =>
      simp only [sumValues, List.map_cons, List.sum_cons] at ih ⊢
      rw [ih, add_div]

theorem dictGet_buildProblemBalanced (keys : List String) :
    ∀ d k, dictGet (buildProblemBalanced d keys) k =
      if k ∈ keys then some 1 else dictGet d k := by
  induction keys with
  | nil =>
      intro d k
      simp [buildProblemBalanced]
  | cons k0 ks ih =>
      intro d k
      show dictGet (buildProblemBalanced (dictSet d k0 1) ks) k = _
      rw [ih]
      by_cases hk : k ∈ ks
      · simp [hk]
      · by_cases hk0 : k = k0
        · subst hk0
          simp [hk, dictGet_dictSet_self]
        · simp [hk, hk0, dictGet_dictSet_ne _ _ _ _ hk0]

theorem dictKeys_dictSet {α : Type} (d : List (String × α)) (k : String)
    (v : α) :
    dictKeys (dictSet d k v) =
      if k ∈ dictKeys d then dictKeys d else dictKeys d ++ [k] := by
  induction d with
  | nil => simp [dictKeys, dictSet]
  | cons hd tl ih =>
      obtain ⟨k0, v0⟩ := hd
      by_cases h : k0 = k
      · subst h
        simp [dictKeys, dictSet]
      · simp only [dictKeys, dictSet, if_neg h, List.map_cons] at ih ⊢
        rw [ih]
        by_cases hm : k ∈ tl.map Prod.fst
        · simp [hm, h]
        · simp [hm, h, Ne.symm h]

theorem nodup_dictKeys_dictSet {α : Type} (d : List (String × α)) (k : String)
    (v : α) (h : (dictKeys d).Nodup) : (dictKeys (dictSet d k v)).Nodup := by
  rw [dictKeys_dictSet]
  by_cases hm : k ∈ dictKeys d
  · simpa [hm] using h
  · simp [hm, List.nodup_append, h]

theorem toFinset_dictKeys_dictSet {α : Type} (d : List (String × α))
    (k : String) (v : α) :
    (dictKeys (dictSet d k v)).toFinset = insert k (dictKeys d).toFinset := by
  rw [dictKeys_dictSet]
  by_cases hm : k ∈ dictKeys d
  · rw [if_pos hm]
    exact (Finset.insert_eq_self.2 (List.mem_toFinset.2 hm)).symm
  · rw [if_neg hm]
    rw [List.toFinset_append]
    simp only [List.toFinset_cons, List.toFinset_nil, insert_emptyc_eq]
    rw [Finset.insert_eq, Finset.union_comm]

theorem toFinset_dictKeys_buildProblemBalanced (keys : List String) :
    ∀ d, (dictKeys (buildProblemBalanced d keys)).toFinset =
      (dictKeys d).toFinset ∪ keys.toFinset := by
  induction keys with
  | nil =>
      intro d
      simp [buildProblemBalanced]
  | cons k0 ks ih =>
      intro d
      show (dictKeys (buildProblemBalanced (dictSet d k0 1) ks)).toFinset = _
      rw [ih, toFinset_dictKeys_dictSet]
      simp [Finset.insert_union, Finset.union_insert]

theorem nodup_dictKeys_buildProblemBalanced (keys : List String) :
    ∀ d, (dictKeys d).Nodup →
      (dictKeys (buildProblemBalanced d keys)).Nodup := by
  induction keys with
  | nil =>
      intro d h
      exact h
  | cons k0 ks ih =>
      intro d h
      exact ih (dictSet d k0 1) (nodup_dictKeys_dictSet d k0 1 h)

theorem values_dictSet_one (d : List (String × ℚ)) (k : String)
    (h : ∀ kv ∈ d, kv.2 = 1) : ∀ kv ∈ dictSet d k 1, kv.2 = 1 := by
  induction d with
  | nil =>
      intro kv hkv
      simp only [dictSet, List.mem_singleton] at hkv
      rw [hkv]
  | cons hd tl ih =>
      obtain ⟨k0, v0⟩ := hd
      intro kv hkv
      by_cases h0 : k0 = k
      · rw [dictSet, if_pos h0] at hkv
        rcases List.mem_cons.1 hkv with h1 | h1
        · rw [h1]
        · exact h kv (List.mem_cons_of_mem _ h1)
      · rw [dictSet, if_neg h0] at hkv
        rcases List.mem_cons.1 hkv with h1 | h1
        · exact h kv (h1 ▸ List.mem_cons_self _ _)
        · exact ih (fun kv' hkv' => h kv' (List.mem_cons_of_mem _ hkv')) kv h1

theorem values_buildProblemBalanced (keys : List String) :
    ∀ d, (∀ kv ∈ d, kv.2 = 1) →
      ∀ kv ∈ buildProblemBalanced d keys, kv.2 = 1 := by
  induction keys with
  | nil =>
      intro d h
      exact h
  | cons k0 ks ih =>
      intro d h
      exact ih (dictSet d k0 1) (values_dictSet_one d k0 h)

theorem sumValues_of_ones (d : List (String × ℚ)) (h : ∀ kv ∈ d, kv.2 = 1) :
    sumValues d = d.length := by
  induction d with
  | nil => simp [sumValues]
  | cons hd tl ih =>
      have htl : sumValues tl = tl.length :=
        ih fun kv hkv => h kv (List.mem_cons_of_mem hd hkv)
      simp only [sumValues, List.map_cons, List.sum_cons, List.length_cons]
      rw [h hd (List.mem_cons_self hd tl)]
      rw [show (List.map Prod.snd tl).sum = sumValues tl from rfl, htl]
      push_cast
      ring

theorem length_buildProblemBalanced_eq_dedup (keys : List String) :
    (buildProblemBalanced [] keys).length = keys.dedup.length := by
  have h1 : (dictKeys (buildProblemBalanced [] keys)).Nodup :=
    nodup_dictKeys_buildProblemBalanced keys [] (by simp [dictKeys])
  have h2 : (dictKeys (buildProblemBalanced [] keys)).toFinset =
      keys.toFinset := by
    rw [toFinset_dictKeys_buildProblemBalanced keys []]
    simp [dictKeys]
  have h3 := List.toFinset_card_of_nodup h1
  rw [h2, List.card_toFinset] at h3
  have h4 : (dictKeys (buildProblemBalanced [] keys)).length =
      (buildProblemBalanced [] keys).length := List.length_map _ _
  rw [← h4, ← h3]

theorem dictGet_mapValuesDiv (s : ℚ) (d : List (String × ℚ)) (k : String) :
    dictGet (d.map fun kv => (kv.1, kv.2 / s)) k =
      (dictGet d k).map (fun v => v / s) :=
  dictGet_mapValues (fun v => v / s) d k

/-- Evaluation of `set_data_sampling_strategy` when no
`sampling_strategy_fn` is provided. -/
theorem set_data_eval (problem_chunk : List (List String))
    (dnd : String → Option ℕ) (strategy : String) :
    set_data_sampling_strategy problem_chunk dnd strategy none =
      (match samplingNumerators problem_chunk dnd strategy with
      | .error e => .error e
      | .ok d =>
          if d = [] then .ok []
          else if sumValues d = 0 then .error .zeroDivisionError
          else .ok (d.map fun kv => (kv.1, kv.2 / sumValues d))) := rfl

/-- **C2** (amended): for `data_balanced`, the accumulated `defaultdict` maps
每 chunk key `k` to the sum of data counts over *all* chunks whose sorted
`'_'`-joined name equals `k` (duplicate chunk keys are merged by the
`defaultdict` accumulation), divided by the grand total. -/
theorem set_data_sampling_data_balanced_spec
    (problem_chunk : List (List String)) (dnd : String → Option ℕ)
    (h1 : ∀ p ∈ problem_chunk.flatten, (dnd p).isSome)
    (hne : ∀ c ∈ problem_chunk, c ≠ [])
    (htot : totalQ dnd problem_chunk ≠ 0) :
    ∃ w, set_data_sampling_strategy problem_chunk dnd "data_balanced" none =
        .ok w ∧
      ∀ k, dictGet w k =
        if k ∈ problem_chunk.map chunkKey then
          some (accSumQ dnd problem_chunk k / totalQ dnd problem_chunk)
        else none := by
  obtain ⟨d', hbuild, hget, hsum⟩ :=
    buildDataBalanced_spec dnd problem_chunk [] h1 hne
  have hsum' : sumValues d' = totalQ dnd problem_chunk := by
    rw [hsum]
    simp [sumValues]
  have hch : problem_chunk ≠ [] := by
    intro h
    apply htot
    rw [h]
    rfl
  have hd'ne : d' ≠ [] := by
    cases hpc : problem_chunk with
    | nil => exact absurd hpc hch
    | cons c0 cs0 =>
        intro hnil
        have hmem : chunkKey c0 ∈ problem_chunk.map chunkKey := by
          rw [hpc]
          simp
        have hx := hget (chunkKey c0)
        rw [if_pos hmem, hnil] at hx
        simp [dictGet] at hx
  have hnum : samplingNumerators problem_chunk dnd "data_balanced" =
      .ok d' := by
    unfold samplingNumerators
    rw [if_pos rfl, hbuild]
  refine ⟨d'.map fun kv => (kv.1, kv.2 / sumValues d'), ?_, ?_⟩
  · rw [set_data_eval, hnum]
    show (if d' = [] then _ else _) = _
    rw [if_neg hd'ne, if_neg (by rw [hsum']; exact htot)]
  · intro k
    rw [dictGet_mapValuesDiv (sumValues d') d' k, hget k]
    by_cases hmem : k ∈ problem_chunk.map chunkKey
    · rw [if_pos hmem, if_pos hmem, hsum']
      show some (((none : Option ℚ).getD 0 + accSumQ dnd problem_chunk k) /
        totalQ dnd problem_chunk) = _
      rw [Option.getD_none, zero_add]
    · rw [if_neg hmem, if_neg hmem]
      rfl

/-- The weight dict described by claim C2, in the claim's own words: each
chunk's key maps to that single chunk's data-count sum divided by the grand
total. -/
def dataBalancedClaim (problem_chunk : List (List String))
    (dnd : String → Option ℕ) (w : List (String × ℚ)) : Prop :=
  ∀ c ∈ problem_chunk, dictGet w (chunkKey c) =
    some (chunkSumQ dnd c / totalQ dnd problem_chunk)

/-- Counterexample to **C2** as stated: for the flag string `a|a` (two chunks
both consisting of the single problem `a`, which has one data row), the
`defaultdict` accumulation merges the two equal chunk keys: the returned
weight of key `a` is `1`, while the claim predicts `chunk sum / total = 1/2`
for each chunk. -/
theorem set_data_sampling_data_balanced_cx :
    ∃ w, set_data_sampling_strategy [["a"], ["a"]]
        (dictGet [("a", 1)]) "data_balanced" none = .ok w ∧
      ¬ dataBalancedClaim [["a"], ["a"]] (dictGet [("a", 1)]) w := by
  have hnum : samplingNumerators [["a"], ["a"]] (dictGet [("a", 1)])
      "data_balanced" = .ok [("a", ((1 : ℕ) : ℚ) + ((1 : ℕ) : ℚ))] := rfl
  have hsum : sumValues [("a", ((1 : ℕ) : ℚ) + ((1 : ℕ) : ℚ))] = 2 := by
    simp [sumValues]
    norm_num
  refine ⟨[("a", 1)], ?_, ?_⟩
  · rw [set_data_eval, hnum]
    show (if ([("a", ((1 : ℕ) : ℚ) + ((1 : ℕ) : ℚ))] :
        List (String × ℚ)) = [] then _ else _) = _
    rw [if_neg (by simp), if_neg (by rw [hsum]; norm_num)]
    simp only [List.map_cons, List.map_nil]
    rw [hsum]
    norm_num
  · intro hclaim
    have hx := hclaim ["a"] (List.mem_cons_self _ _)
    rw [show chunkKey ["a"] = "a" from rfl] at hx
    rw [show dictGet [("a", (1 : ℚ))] "a" = some 1 from rfl] at hx
    rw [Option.some_inj] at hx
    have hcs : chunkSumQ (dictGet [("a", (1 : ℕ))]) ["a"] = 1 := by
      simp [chunkSumQ, countQ, dictGet]
    have hts : totalQ (dictGet [("a", (1 : ℕ))]) [["a"], ["a"]] = 2 := by
      simp [totalQ, chunkSumQ, countQ, dictGet]
      norm_num
    rw [hcs, hts] at hx
    norm_num at hx

/-- **C3** (amended): `problem_balanced` gives every *distinct* chunk key the
same weight `1 / (number of distinct chunk keys)` (repeated assignments of
`1` collapse duplicate chunk keys into a single dict entry). -/
theorem set_data_sampling_problem_balanced_spec
    (problem_chunk : List (List String)) (dnd : String → Option ℕ)
    (hch : problem_chunk ≠ []) :
    ∃ w, set_data_sampling_strategy problem_chunk dnd "problem_balanced"
        none = .ok w ∧
      ∀ k, dictGet w k =
        if k ∈ problem_chunk.map chunkKey then
          some (1 / (((problem_chunk.map chunkKey).dedup.length : ℕ) : ℚ))
        else none := by
  set ks := problem_chunk.map chunkKey with hks
  set d' := buildProblemBalanced [] ks with hd'
  have hget : ∀ k, dictGet d' k = if k ∈ ks then some 1 else none := by
    intro k
    rw [hd', dictGet_buildProblemBalanced ks [] k]
    by_cases hmem : k ∈ ks <;> simp [hmem, dictGet]
  have hksne : ks ≠ [] := by
    cases hpc : problem_chunk with
    | nil => exact absurd hpc hch
    | cons c0 cs0 => simp [hks, hpc]
  have hd'ne : d' ≠ [] := by
    cases hk : ks with
    | nil => exact absurd hk hksne
    | cons k0 ks' =>
        intro hnil
        have hx := hget k0
        rw [hnil, if_pos (by rw [hk]; exact List.mem_cons_self k0 ks')] at hx
        simp [dictGet] at hx
  have hones : ∀ kv ∈ d', kv.2 = 1 :=
    values_buildProblemBalanced ks [] (by simp)
  have hsum : sumValues d' = ((ks.dedup.length : ℕ) : ℚ) := by
    rw [hd', sumValues_of_ones _ (hd' ▸ hones),
      length_buildProblemBalanced_eq_dedup ks]
  have hn0 : ((ks.dedup.length : ℕ) : ℚ) ≠ 0 := by
    have hdne : ks.dedup ≠ [] := by
      intro h
      exact hksne ((List.dedup_eq_nil ks).1 h)
    have hpos : 0 < ks.dedup.length := List.length_pos.2 hdne
    exact_mod_cast Nat.pos_iff_ne_zero.1 hpos
  have hnum : samplingNumerators problem_chunk dnd "problem_balanced" =
      .ok d' := by
    unfold samplingNumerators
    rw [if_neg (by decide), if_pos rfl]
  refine ⟨d'.map fun kv => (kv.1, kv.2 / sumValues d'), ?_, ?_⟩
  · rw [set_data_eval, hnum]
    show (if d' = [] then _ else _) = _
    rw [if_neg hd'ne, if_neg (by rw [hsum]; exact hn0)]
  · intro k
    rw [dictGet_mapValuesDiv (sumValues d') d' k, hget k]
    by_cases hmem : k ∈ ks
    · rw [if_pos hmem, if_pos hmem]
      show some ((1 : ℚ) / sumValues d') = _
      rw [hsum]
    · rw [if_neg hmem, if_neg hmem]
      rfl

/-- The weight dict described by claim C3, in the claim's own words: every
chunk gets weight `1 / (number of problem chunks)`. -/
def problemBalancedClaim (problem_chunk : List (List String))
    (w : List (String × ℚ)) : Prop :=
  ∀ c ∈ problem_chunk, dictGet w (chunkKey c) =
    some (1 / (problem_chunk.length : ℚ))

/-- Counterexample to **C3** as stated: for the flag string `a|a` (two equal
chunks) the assignment loop collapses both chunks onto the single key `a`,
which receives weight `1`, not `1 / 2` as the claim predicts. -/
theorem set_data_sampling_problem_balanced_cx :
    ∃ w, set_data_sampling_strategy [["a"], ["a"]] (dictGet [])
        "problem_balanced" none = .ok w ∧
      ¬ problemBalancedClaim [["a"], ["a"]] w := by
  have hnum : samplingNumerators [["a"], ["a"]] (dictGet [])
      "problem_balanced" = .ok [("a", (1 : ℚ))] := rfl
  have hsum : sumValues [("a", (1 : ℚ))] = 1 := by
    simp [sumValues]
  refine ⟨[("a", 1)], ?_, ?_⟩
  · rw [set_data_eval, hnum]
    show (if ([("a", (1 : ℚ))] : List (String × ℚ)) = [] then _ else _) = _
    rw [if_neg (by simp), if_neg (by rw [hsum]; norm_num)]
    simp only [List.map_cons, List.map_nil]
    rw [hsum]
    norm_num
  · intro hclaim
    have hx := hclaim ["a"] (List.mem_cons_self _ _)
    rw [show chunkKey ["a"] = "a" from rfl] at hx
    rw [show dictGet [("a", (1 : ℚ))] "a" = some 1 from rfl] at hx
    rw [Option.some_inj] at hx
    norm_num at hx

theorem values_dictSet_nonneg (d : List (String × ℚ)) (k : String) (x : ℚ)
    (hd : ∀ kv ∈ d, 0 ≤ kv.2) (hx : 0 ≤ x) :
    ∀ kv ∈ dictSet d k x, 0 ≤ kv.2 := by
  induction d with
  | nil =>
      intro kv hkv
      simp only [dictSet, List.mem_singleton] at hkv
      rw [hkv]
      exact hx
  | cons hd0 tl ih =>
      obtain ⟨k0, v0⟩ := hd0
      intro kv hkv
      by_cases h0 : k0 = k
      · rw [dictSet, if_pos h0] at hkv
        rcases List.mem_cons.1 hkv with h1 | h1
        · rw [h1]
          exact hx
        · exact hd kv (List.mem_cons_of_mem _ h1)
      · rw [dictSet, if_neg h0] at hkv
        rcases List.mem_cons.1 hkv with h1 | h1
        · exact hd kv (h1 ▸ List.mem_cons_self _ _)
        · exact ih (fun kv' hkv' => hd kv' (List.mem_cons_of_mem _ hkv'))
            kv h1

theorem values_ddAdd_nonneg (d : List (String × ℚ)) (k : String) (x : ℚ)
    (hd : ∀ kv ∈ d, 0 ≤ kv.2) (hx : 0 ≤ x) :
    ∀ kv ∈ ddAdd d k x, 0 ≤ kv.2 := by
  unfold ddAdd
  cases h : dictGet d k with
  | some v =>
      have hv : (0 : ℚ) ≤ v := by
        have hmem : (k, v) ∈ d := by
          clear hx
          induction d with
          | nil => simp [dictGet] at h
          | cons hd0 tl ih =>
              obtain ⟨k0, v0⟩ := hd0
              by_cases h0 : k0 = k
              · rw [dictGet, if_pos h0] at h
                rw [Option.some_inj] at h
                exact h0 ▸ h ▸ List.mem_cons_self _ _
              · rw [dictGet, if_neg h0] at h
                exact List.mem_cons_of_mem _
                  (ih (fun kv hkv => hd kv (List.mem_cons_of_mem _ hkv)) h)
        exact hd (k, v) hmem
      exact values_dictSet_nonneg d k (v + x) hd (by linarith)
  | none =>
      intro kv hkv
      rcases List.mem_append.1 hkv with h1 | h1
      · exact hd kv h1
      · simp only [List.mem_singleton] at h1
        rw [h1]
        exact hx

theorem values_addChunkCounts_nonneg (dnd : String → Option ℕ) (k : String)
    (c : List String) :
    ∀ d d2, (∀ kv ∈ d, 0 ≤ kv.2) → addChunkCounts dnd k d c = some d2 →
      ∀ kv ∈ d2, 0 ≤ kv.2 := by
  induction c with
  | nil =>
      intro d d2 hd h
      simp only [addChunkCounts, Option.some_inj] at h
      exact h ▸ hd
  | cons p ps ih =>
      intro d d2 hd h
      cases hn : dnd p with
      | none => simp [addChunkCounts, hn] at h
      | some n =>
          simp only [addChunkCounts, hn] at h
          exact ih (ddAdd d k (n : ℚ)) d2
            (values_ddAdd_nonneg d k (n : ℚ) hd (by positivity)) h

theorem values_buildDataBalanced_nonneg (dnd : String → Option ℕ) :
    ∀ (cs : List (List String)) (d d2 : List (String × ℚ)),
      (∀ kv ∈ d, 0 ≤ kv.2) → buildDataBalanced dnd d cs = some d2 →
      ∀ kv ∈ d2, 0 ≤ kv.2 := by
  intro cs
  induction cs with
  | nil =>
      intro d d2 hd h
      simp only [buildDataBalanced, Option.some_inj] at h
      exact h ▸ hd
  | cons c cs ih =>
      intro d d2 hd h
      simp only [buildDataBalanced] at h
      cases hc : addChunkCounts dnd (chunkKey c) d c with
      | none => rw [hc] at h; cases h
      | some d1 =>
          rw [hc] at h
          exact ih d1 d2
            (values_addChunkCounts_nonneg dnd (chunkKey c) c d d1 hd hc) h

/-- **C9**: for both built-in strategies, the dict assigned to
`problem_sampling_weight_dict` is a probability distribution — every value
non-negative, values summing to `1` — and (for `data_balanced`, where the
accumulated totals are the data counts) a zero accumulated sum makes the
normalising division raise `ZeroDivisionError`.  The hypotheses — at least
one chunk, no empty chunk, a data count for every problem — hold for every
parsed problem string with populated `data_num_dict`. -/
theorem sampling_weights_distribution
    (problem_chunk : List (List String)) (dnd : String → Option ℕ)
    (strategy : String)
    (h1 : ∀ p ∈ problem_chunk.flatten, (dnd p).isSome)
    (hne : ∀ c ∈ problem_chunk, c ≠ []) (hch : problem_chunk ≠ [])
    (hs : strategy = "data_balanced" ∨ strategy = "problem_balanced") :
    (∀ w, set_data_sampling_strategy problem_chunk dnd strategy none = .ok w →
      (∀ kv ∈ w, 0 ≤ kv.2) ∧ sumValues w = 1) ∧
    (strategy = "data_balanced" → totalQ dnd problem_chunk = 0 →
      set_data_sampling_strategy problem_chunk dnd strategy none =
        .error .zeroDivisionError) := by
  rcases hs with hs | hs
  · subst hs
    obtain ⟨d', hbuild, hget, hsum⟩ :=
      buildDataBalanced_spec dnd problem_chunk [] h1 hne
    have hsum' : sumValues d' = totalQ dnd problem_chunk := by
      rw [hsum]
      simp [sumValues]
    have hd'ne : d' ≠ [] := by
      cases hpc : problem_chunk with
      | nil => exact absurd hpc hch
      | cons c0 cs0 =>
          intro hnil
          have hmem : chunkKey c0 ∈ problem_chunk.map chunkKey := by
            rw [hpc]
            simp
          have hx := hget (chunkKey c0)
          rw [if_pos hmem, hnil] at hx
          simp [dictGet] at hx
    have hnum : samplingNumerators problem_chunk dnd "data_balanced" =
        .ok d' := by
      unfold samplingNumerators
      rw [if_pos rfl, hbuild]
    have hvals : ∀ kv ∈ d', 0 ≤ kv.2 :=
      values_buildDataBalanced_nonneg dnd problem_chunk [] d' (by simp) hbuild
    constructor
    · intro w hw
      rw [set_data_eval, hnum] at hw
      rw [show (match (.ok d' : Except PyError (List (String × ℚ))) with
          | .error e => .error e
          | .ok d =>
              if d = [] then .ok []
              else if sumValues d = 0 then
                Except.error PyError.zeroDivisionError
              else .ok (d.map fun kv => (kv.1, kv.2 / sumValues d))) =
          (if d' = [] then (.ok [] : Except PyError (List (String × ℚ)))
            else if sumValues d' = 0 then .error .zeroDivisionError
            else .ok (d'.map fun kv => (kv.1, kv.2 / sumValues d')))
          from rfl, if_neg hd'ne] at hw
      by_cases hz : sumValues d' = 0
      · rw [if_pos hz] at hw
        cases hw
      · rw [if_neg hz] at hw
        rw [Except.ok.injEq] at hw
        subst hw
        constructor
        · intro kv hkv
          obtain ⟨kv0, hkv0, rfl⟩ := List.mem_map.1 hkv
          have h0 := hvals kv0 hkv0
          have hsnn : 0 ≤ sumValues d' := by
            rw [hsum']
            exact totalQ_nonneg dnd problem_chunk
          exact div_nonneg h0 hsnn
        · rw [sumValues_mapValues_div]
          exact div_self hz
    · intro _ htot0
      rw [set_data_eval, hnum]
      show (if d' = [] then _ else _) = _
      rw [if_neg hd'ne, if_pos (by rw [hsum', htot0])]
  · subst hs
    set ks := problem_chunk.map chunkKey with hks
    set d' := buildProblemBalanced [] ks with hd'
    have hget : ∀ k, dictGet d' k = if k ∈ ks then some 1 else none := by
      intro k
      rw [hd', dictGet_buildProblemBalanced ks [] k]
      by_cases hmem : k ∈ ks <;> simp [hmem, dictGet]
    have hksne : ks ≠ [] := by
      cases hpc : problem_chunk with
      | nil => exact absurd hpc hch
      | cons c0 cs0 => simp [hks, hpc]
    have hd'ne : d' ≠ [] := by
      cases hk : ks with
      | nil => exact absurd hk hksne
      | cons k0 ks' =>
          intro hnil
          have hx := hget k0
          rw [hnil, if_pos (by rw [hk]; exact List.mem_cons_self k0 ks')] at hx
          simp [dictGet] at hx
    have hones : ∀ kv ∈ d', kv.2 = 1 :=
      values_buildProblemBalanced ks [] (by simp)
    have hsum : sumValues d' = ((ks.dedup.length : ℕ) : ℚ) := by
      rw [hd', sumValues_of_ones _ (hd' ▸ hones),
        length_buildProblemBalanced_eq_dedup ks]
    have hn0 : sumValues d' ≠ 0 := by
      rw [hsum]
      have hdne : ks.dedup ≠ [] := fun h => hksne ((List.dedup_eq_nil ks).1 h)
      have hpos : 0 < ks.dedup.length := List.length_pos.2 hdne
      exact_mod_cast Nat.pos_iff_ne_zero.1 hpos
    have hnum : samplingNumerators problem_chunk dnd "problem_balanced" =
        .ok d' := by
      unfold samplingNumerators
      rw [if_neg (by decide), if_pos rfl]
    constructor
    · intro w hw
      rw [set_data_eval, hnum] at hw
      rw [show (match (.ok d' : Except PyError (List (String × ℚ))) with
          | .error e => .error e
          | .ok d =>
              if d = [] then .ok []
              else if sumValues d = 0 then
                Except.error PyError.zeroDivisionError
              else .ok (d.map fun kv => (kv.1, kv.2 / sumValues d))) =
          (if d' = [] then (.ok [] : Except PyError (List (String × ℚ)))
            else if sumValues d' = 0 then .error .zeroDivisionError
            else .ok (d'.map fun kv => (kv.1, kv.2 / sumValues d')))
          from rfl, if_neg hd'ne, if_neg hn0] at hw
      rw [Except.ok.injEq] at hw
      subst hw
      constructor
      · intro kv hkv
        obtain ⟨kv0, hkv0, rfl⟩ := List.mem_map.1 hkv
        have h0 : kv0.2 = 1 := hones kv0 hkv0
        have hsnn : 0 ≤ sumValues d' := by
          rw [hsum]
          positivity
        rw [h0]
        exact div_nonneg (by norm_num) hsnn
      · rw [sumValues_mapValues_div]
        exact div_self hn0
    · intro habs
      exact absurd habs (by decide)

/-- **C10**: `set_data_sampling_strategy` raises `NotImplementedError`
whenever a `sampling_strategy_fn` is provided, regardless of the
`sampling_strategy` argument, and raises `ValueError` when no function is
provided and the strategy is neither `data_balanced` nor `problem_balanced`.
Both errors are raised before `problem_sampling_weight_dict` is assigned: an
error result carries no weight dict. -/
theorem set_data_sampling_strategy_errors
    (problem_chunk : List (List String)) (dnd : String → Option ℕ)
    (strategy : String) (fn : Option Unit) :
    (fn.isSome → set_data_sampling_strategy problem_chunk dnd strategy fn =
      .error .notImplementedError) ∧
    (fn = none → strategy ≠ "data_balanced" → strategy ≠ "problem_balanced" →
      set_data_sampling_strategy problem_chunk dnd strategy fn =
        .error .valueError) := by
  constructor
  · intro h
    unfold set_data_sampling_strategy
    rw [if_pos h]
  · intro hfn h1 h2
    subst hfn
    rw [set_data_eval]
    rw [show samplingNumerators problem_chunk dnd strategy =
        .error .valueError from by
      unfold samplingNumerators
      rw [if_neg h1, if_neg h2]]

/-- Witness for the amended C2: chunks `a | b` with 1 and 3 data rows. -/
theorem set_data_sampling_data_balanced_spec_witness :
    (∀ p ∈ ([["a"], ["b"]] : List (List String)).flatten,
      (dictGet [("a", 1), ("b", 3)] p).isSome) ∧
    totalQ (dictGet [("a", 1), ("b", 3)]) [["a"], ["b"]] ≠ 0 ∧
    (∃ w, set_data_sampling_strategy [["a"], ["b"]]
        (dictGet [("a", 1), ("b", 3)]) "data_balanced" none = .ok w ∧
      ∀ k, dictGet w k =
        if k ∈ ([["a"], ["b"]] : List (List String)).map chunkKey then
          some (accSumQ (dictGet [("a", 1), ("b", 3)]) [["a"], ["b"]] k /
            totalQ (dictGet [("a", 1), ("b", 3)]) [["a"], ["b"]])
        else none) :=
  ⟨by decide, by norm_num [totalQ, chunkSumQ, countQ, dictGet,
      show ("a" : String) ≠ "b" from by decide],
    set_data_sampling_data_balanced_spec [["a"], ["b"]]
      (dictGet [("a", 1), ("b", 3)]) (by decide) (by decide)
      (by norm_num [totalQ, chunkSumQ, countQ, dictGet,
      show ("a" : String) ≠ "b" from by decide])⟩

/-- Witness for the amended C3: two distinct chunks `b | a`. -/
theorem set_data_sampling_problem_balanced_spec_witness :
    ([["b"], ["a"]] : List (List String)) ≠ [] ∧
    (∃ w, set_data_sampling_strategy [["b"], ["a"]] (dictGet [])
        "problem_balanced" none = .ok w ∧
      ∀ k, dictGet w k =
        if k ∈ ([["b"], ["a"]] : List (List String)).map chunkKey then
          some (1 / (((([["b"], ["a"]] :
            List (List String)).map chunkKey).dedup.length : ℕ) : ℚ))
        else none) :=
  ⟨by decide, set_data_sampling_problem_balanced_spec [["b"], ["a"]]
    (dictGet []) (by decide)⟩

/-- Witness for C9: the `data_balanced` strategy on chunks `a | b`. -/
theorem sampling_weights_distribution_witness :
    (∀ p ∈ ([["a"], ["b"]] : List (List String)).flatten,
      (dictGet [("a", 1), ("b", 3)] p).isSome) ∧
    (∀ c ∈ ([["a"], ["b"]] : List (List String)), c ≠ []) ∧
    (([["a"], ["b"]] : List (List String)) ≠ []) ∧
    ((∀ w, set_data_sampling_strategy [["a"], ["b"]]
        (dictGet [("a", 1), ("b", 3)]) "data_balanced" none = .ok w →
      (∀ kv ∈ w, 0 ≤ kv.2) ∧ sumValues w = 1) ∧
    ("data_balanced" = "data_balanced" →
      totalQ (dictGet [("a", 1), ("b", 3)]) [["a"], ["b"]] = 0 →
      set_data_sampling_strategy [["a"], ["b"]]
        (dictGet [("a", 1), ("b", 3)]) "data_balanced" none =
        .error .zeroDivisionError)) :=
  ⟨by decide, by decide, by decide,
    sampling_weights_distribution [["a"], ["b"]]
      (dictGet [("a", 1), ("b", 3)]) "data_balanced" (by decide) (by decide)
      (by decide) (Or.inl rfl)⟩

/-- Witness for C10: a provided strategy function, and an unknown strategy. -/
theorem set_data_sampling_strategy_errors_witness :
    (set_data_sampling_strategy [["a"]] (dictGet []) "data_balanced"
      (some ()) = .error .notImplementedError) ∧
    (set_data_sampling_strategy [["a"]] (dictGet []) "not_a_strategy" none =
      .error .valueError) :=
  ⟨(set_data_sampling_strategy_errors [["a"]] (dictGet []) "data_balanced"
      (some ())).1 rfl,
    (set_data_sampling_strategy_errors [["a"]] (dictGet [])
      "not_a_strategy" none).2 rfl (by decide) (by decide)⟩

/-! ## `BaseParams.prepare_dir` path layout (params.py lines 388-422, 501-506) -/

/-- The six path attributes assigned by `prepare_dir`. -/
structure PrepDirPaths where
  ckpt_dir : String
  params_path : String
  transformer_config_name : String
  transformer_tokenizer_name : String
  transformer_decoder_config_name : Option String
  transformer_decoder_tokenizer_name : Option String
  deriving DecidableEq, Repr

/-- The path computations of `prepare_dir` (lines 397-401, 409, 415, 422 and
501-506).  The filesystem copies and the transformers-library calls of the
function touch none of these six attributes; they are modelled separately
(`TransformersEnv` below).  `decoder_config_name`/`decoder_tokenizer_name`
are the incoming `self.transformer_decoder_config_name` /
`self.transformer_decoder_tokenizer_name`, rewritten if and only if they are
not `None`. -/
def prepare_dir_paths (base_dir dir_name : Option String)
    (problem_list : List String)
    (decoder_config_name decoder_tokenizer_name : Option String) :
    PrepDirPaths :=
  let base := base_dir.getD ("models")
  let dn := dir_name.getD (pyJoin ("_") problem_list ++ "_ckpt")
  let ckpt := osJoin base dn
  { ckpt_dir := ckpt,
    params_path := osJoin ckpt ("params.json"),
    transformer_config_name := osJoin ckpt ("bert_config"),
    transformer_tokenizer_name := osJoin ckpt ("tokenizer"),
    transformer_decoder_config_name :=
      if decoder_config_name ≠ none then
        some (osJoin ckpt ("bert_decoder_config"))
      else none,
    transformer_decoder_tokenizer_name :=
      if decoder_tokenizer_name ≠ none then
        some (osJoin ckpt ("decoder_tokenizer"))
      else none }

/-- **C8**: `prepare_dir` sets `ckpt_dir` to `join(base, name)` with `base`
defaulting to `models` and `name` to the `'_'`-join of the problem list plus
`_ckpt`; `params_path`, `transformer_config_name` and
`transformer_tokenizer_name` become the `params.json`, `bert_config` and
`tokenizer` paths under `ckpt_dir`; and the two decoder names are rewritten
to paths under `ckpt_dir` if and only if they were previously non-`None`. -/
theorem prepare_dir_paths_spec (base_dir dir_name : Option String)
    (problem_list : List String) (dcn dtn : Option String) :
    (prepare_dir_paths base_dir dir_name problem_list dcn dtn).ckpt_dir =
      osJoin (base_dir.getD ("models"))
        (dir_name.getD (pyJoin ("_") problem_list ++ "_ckpt")) ∧
    (prepare_dir_paths base_dir dir_name problem_list dcn dtn).params_path =
      osJoin (prepare_dir_paths base_dir dir_name problem_list dcn
        dtn).ckpt_dir ("params.json") ∧
    (prepare_dir_paths base_dir dir_name problem_list dcn
        dtn).transformer_config_name =
      osJoin (prepare_dir_paths base_dir dir_name problem_list dcn
        dtn).ckpt_dir ("bert_config") ∧
    (prepare_dir_paths base_dir dir_name problem_list dcn
        dtn).transformer_tokenizer_name =
      osJoin (prepare_dir_paths base_dir dir_name problem_list dcn
        dtn).ckpt_dir ("tokenizer") ∧
    ((prepare_dir_paths base_dir dir_name problem_list dcn
        dtn).transformer_decoder_config_name = none ↔ dcn = none) ∧
    (dcn ≠ none →
      (prepare_dir_paths base_dir dir_name problem_list dcn
          dtn).transformer_decoder_config_name =
        some (osJoin (prepare_dir_paths base_dir dir_name problem_list dcn
          dtn).ckpt_dir ("bert_decoder_config"))) ∧
    ((prepare_dir_paths base_dir dir_name problem_list dcn
        dtn).transformer_decoder_tokenizer_name = none ↔ dtn = none) ∧
    (dtn ≠ none →
      (prepare_dir_paths base_dir dir_name problem_list dcn
          dtn).transformer_decoder_tokenizer_name =
        some (osJoin (prepare_dir_paths base_dir dir_name problem_list dcn
          dtn).ckpt_dir ("decoder_tokenizer"))) := by
  refine ⟨rfl, rfl, rfl, rfl, ?_, ?_, ?_, ?_⟩ <;>
    cases dcn <;> cases dtn <;> simp [prepare_dir_paths]

/-- Witness for C8: default base and dir name for problems `a, b`, with a
decoder config set and no decoder tokenizer. -/
theorem prepare_dir_paths_spec_witness :
    (prepare_dir_paths none none ["a", "b"] (some ("hf-decoder"))
        none).ckpt_dir =
      osJoin ((none : Option String).getD ("models"))
        ((none : Option String).getD (pyJoin ("_") ["a", "b"] ++ "_ckpt")) ∧
    ((some ("hf-decoder") : Option String) ≠ none) ∧
    (prepare_dir_paths none none ["a", "b"] (some ("hf-decoder"))
        none).transformer_decoder_config_name =
      some (osJoin (prepare_dir_paths none none ["a", "b"]
        (some ("hf-decoder")) none).ckpt_dir ("bert_decoder_config")) ∧
    ((prepare_dir_paths none none ["a", "b"] (some ("hf-decoder"))
        none).transformer_decoder_tokenizer_name = none ↔
      (none : Option String) = none) :=
  ⟨(prepare_dir_paths_spec none none ["a", "b"] (some ("hf-decoder"))
      none).1,
    by decide,
    (prepare_dir_paths_spec none none ["a", "b"] (some ("hf-decoder"))
      none).2.2.2.2.2.1 (by decide),
    (prepare_dir_paths_spec none none ["a", "b"] (some ("hf-decoder"))
      none).2.2.2.2.2.2.1⟩

/-! ## Attribute-level model: `PyVal`, `vars(self)`, the filesystem -/

/-- A Python value as stored in a `BaseParams` attribute.  The JSON-like
constructors are exactly the values `json.dumps` accepts (all dicts of
`BaseParams` have string keys); floats are exact rationals.  `pycallable` is
a function object identified by a number, and `pyconfig` a transformers
config object carrying its `to_dict()` dictionary — `json.dumps` rejects
both with `TypeError`. -/
inductive PyVal
  | pynull
  | pybool (b : Bool)
  | pyint (n : ℤ)
  | pyfloat (q : ℚ)
  | pystr (s : String)
  | pylist (l : List PyVal)
  | pydict (d : List (String × PyVal))
  | pycallable (id : ℕ)
  | pyconfig (d : List (String × PyVal))
  deriving Repr

mutual

/-- Whether `json.dumps` accepts the value. -/
def jsonOk : PyVal → Bool
  | .pynull => true
  | .pybool _ => true
  | .pyint _ => true
  | .pyfloat _ => true
  | .pystr _ => true
  | .pylist l => jsonOkList l
  | .pydict d => jsonOkDict d
  | .pycallable _ => false
  | .pyconfig _ => false

/-- All list elements are serialisable. -/
def jsonOkList : List PyVal → Bool
  | [] => true
  | v :: vs => jsonOk v && jsonOkList vs

/-- All dict values are serialisable. -/
def jsonOkDict : List (String × PyVal) → Bool
  | [] => true
  | kv :: kvs => jsonOk kv.2 && jsonOkDict kvs

end

/-- The attribute dictionary of a `BaseParams` object (`vars(self)`),
insertion-ordered like a Python instance `__dict__`. -/
abbrev Attrs := List (String × PyVal)

/-- The filesystem seen by `to_json` / `from_json` / `get_data_info`: a map
from paths to the JSON value stored in the file.  This is a faithful view
for the JSON-serialisable values written here, which round-trip exactly
(modern Python floats round-trip through `repr`). -/
abbrev FS := List (String × PyVal)

/-- `BaseParams.to_json` (params.py lines 254-266): try `json.dumps` on every
attribute, collect the serialisable ones in insertion order, and write the
dict to `self.params_path`.  A missing `params_path` raises
`AttributeError`; a non-string one makes `open` raise (`TypeError`). -/
def to_json (st : Attrs) (fs : FS) : Except PyError FS :=
  let dump_dict := st.filter fun kv => jsonOk kv.2
  match dictGet st ("params_path") with
  | some (.pystr p) => .ok (dictSet fs p (.pydict dump_dict))
  | some _ => .error .typeError
  | none => .error .attributeError

/-- **C6**: `to_json` writes to `params_path` a JSON object containing
exactly those attributes whose values are JSON-serialisable; every
non-serialisable attribute (such as the processing callables in
`read_data_fn`) is silently omitted rather than raising an error. -/
theorem to_json_spec (st : Attrs) (fs : FS) (p : String)
    (hp : dictGet st ("params_path") = some (.pystr p)) :
    ∃ fs', to_json st fs = .ok fs' ∧
      dictGet fs' p = some (.pydict (st.filter fun kv => jsonOk kv.2)) ∧
      ∀ kv, kv ∈ st.filter (fun kv2 => jsonOk kv2.2) ↔
        kv ∈ st ∧ jsonOk kv.2 := by
  refine ⟨dictSet fs p (.pydict (st.filter fun kv => jsonOk kv.2)), ?_, ?_, ?_⟩
  · unfold to_json
    rw [hp]
  · exact dictGet_dictSet_self fs p _
  · intro kv
    exact List.mem_filter

/-- A small attribute state with serialisable and non-serialisable values. -/
def sampleAttrs : Attrs :=
  [("params_path", .pystr ("models/a_ckpt/params.json")),
    ("batch_size", .pyint 32),
    ("read_data_fn", .pydict [("a", .pycallable 0)]),
    ("bert_config", .pyconfig [("vocab_size", .pyint 100)]),
    ("init_lr", .pyfloat (1 / 50000))]

/-- Witness for C6: on `sampleAttrs`, the callable in `read_data_fn` and the
config object are dropped and the rest is written. -/
theorem to_json_spec_witness :
    dictGet sampleAttrs ("params_path") =
      some (.pystr ("models/a_ckpt/params.json")) ∧
    (∃ fs', to_json sampleAttrs [] = .ok fs' ∧
      dictGet fs' ("models/a_ckpt/params.json") =
        some (.pydict (sampleAttrs.filter fun kv => jsonOk kv.2)) ∧
      ∀ kv, kv ∈ sampleAttrs.filter (fun kv2 => jsonOk kv2.2) ↔
        kv ∈ sampleAttrs ∧ jsonOk kv.2) :=
  ⟨rfl, to_json_spec sampleAttrs [] ("models/a_ckpt/params.json") rfl⟩

/-! ## Attribute-level `assign_problem` / `from_json` -/

/-- Python `v is None`. -/
def isPyNull : PyVal → Bool
  | .pynull => true
  | _ => false

/-- Python truthiness of a value. -/
def pyTruthy : PyVal → Bool
  | .pynull => false
  | .pybool b => b
  | .pyint n => n ≠ 0
  | .pyfloat q => q ≠ 0
  | .pystr s => s ≠ ""
  | .pylist l => !l.isEmpty
  | .pydict d => !d.isEmpty
  | .pycallable _ => true
  | .pyconfig _ => true

/-- Decode a dict of strings (the stored `problem_type`). -/
def strPairs? : List (String × PyVal) → Option (List (String × String))
  | [] => some []
  | (k, .pystr s) :: rest => (strPairs? rest).map (fun l => (k, s) :: l)
  | _ => none

/-- Decode `problem_type`-like attributes. -/
def pyStrDict? : PyVal → Option (List (String × String))
  | .pydict d => strPairs? d
  | _ => none

/-- Decode a dict of data-row counts (counts are dataset sizes, hence
non-negative; a negative entry is rejected by the model). -/
def natPairs? : List (String × PyVal) → Option (List (String × ℕ))
  | [] => some []
  | (k, .pyint n) :: rest =>
      if 0 ≤ n then (natPairs? rest).map (fun l => (k, n.toNat) :: l)
      else none
  | _ => none

/-- Decode `data_num_dict`. -/
def pyNatDict? : PyVal → Option (List (String × ℕ))
  | .pydict d => natPairs? d
  | _ => none

/-- Decode a non-negative integer attribute. -/
def pyNat? : PyVal → Option ℕ
  | .pyint n => if 0 ≤ n then some n.toNat else none
  | _ => none

/-- Decode an optional string (`None` or `str`). -/
def pyOptStr? : PyVal → Option (Option String)
  | .pynull => some none
  | .pystr s => some (some s)
  | _ => none

/-- Decode a float (a Python `int` is accepted where a float is expected). -/
def pyFloat? : PyVal → Option ℚ
  | .pyfloat q => some q
  | .pyint n => some (n : ℚ)
  | _ => none

/-- Encode a list of strings. -/
def encodeStrList (l : List String) : PyVal :=
  .pylist (l.map .pystr)

/-- Encode `problem_chunk`. -/
def encodeChunks (pc : List (List String)) : PyVal :=
  .pylist (pc.map encodeStrList)

/-- Encode `run_problem_list` (a list of `{problem: type}` dicts). -/
def encodeRunProblemList (rpl : List (List (String × String))) : PyVal :=
  .pylist (rpl.map fun d => .pydict (d.map fun kv => (kv.1, .pystr kv.2)))

/-- Encode `data_num_dict`. -/
def encodeNatDict (d : List (String × ℕ)) : PyVal :=
  .pydict (d.map fun kv => (kv.1, .pyint kv.2))

/-- Encode `problem_sampling_weight_dict`. -/
def encodeRatDict (d : List (String × ℚ)) : PyVal :=
  .pydict (d.map fun kv => (kv.1, .pyfloat kv.2))

/-- Encode an optional string. -/
def encodeOptStr : Option String → PyVal
  | none => .pynull
  | some s => .pystr s

/-- Modelled from the spec: the transformers-library and filesystem side of
`prepare_dir` ("delegation to a pretrained-model loading library", the spec's
"manages checkpoint/tokenizer/config filesystem layout") and the
`read_data_fn` calls of `get_data_info` — code that lives outside
`params.py`.  Its outputs are parameters: the encoder config dict (loaded
from the checkpoint or from huggingface), its vocab size, whether weights
come from huggingface, the optional decoder data (config dict, vocab size,
bos id, eos id), and the per-problem `(row count, num_classes)` result of a
`read_data_fn` call. -/
structure TransformersEnv where
  bertConfigDict : List (String × PyVal)
  vocabSize : ℕ
  initWeightFromHuggingface : Bool
  decoder : Option (List (String × PyVal) × ℕ × ℤ × ℤ)
  readData : String → ℕ × PyVal

/-- The `for problem in problem_list` accumulation of `get_data_info`
(lines 329-337): total row count, updated `data_num_dict` and
`num_classes`. -/
def accumData (env : TransformersEnv) :
    List String → List (String × ℕ) → List (String × PyVal) →
    ℕ × List (String × ℕ) × List (String × PyVal)
  | [], dnd, nc => (0, dnd, nc)
  | p :: ps, dnd, nc =>
      match dictGet dnd p with
      | some n =>
          let r := accumData env ps dnd nc
          (n + r.1, r.2)
      | none =>
          let d := env.readData p
          let r := accumData env ps (dictSet dnd p d.1) (dictSet nc p d.2)
          (d.1 + r.1, r.2)

/-- The `if not self.predicting:` block of `get_data_info` (lines 327-345):
recompute `data_num`, fill missing counts via `read_data_fn`, and write
`data_info.json`. -/
def gdiLoop (env : TransformersEnv) (st : Attrs) (fs : FS)
    (problem_list : List String) (json_path : String) (predicting : Bool) :
    Except PyError (Attrs × FS) :=
  if predicting then .ok (st, fs)
  else
    match dictGet st ("data_num_dict"), dictGet st ("num_classes") with
    | some dnv, some ncv =>
        match pyNatDict? dnv, ncv with
        | some dnd, .pydict nc =>
            let r := accumData env problem_list dnd nc
            let st := dictSet st ("data_num_dict") (encodeNatDict r.2.1)
            let st := dictSet st ("num_classes") (.pydict r.2.2)
            let st := dictSet st ("data_num") (.pyint r.1)
            .ok (st, dictSet fs json_path (.pydict
              [("data_num", encodeNatDict r.2.1),
                ("num_classes", .pydict r.2.2)]))
        | _, _ => .error .typeError
    | _, _ => .error .attributeError

/-- `BaseParams.get_data_info` (lines 302-345) at the attribute level: load
`data_info.json` when it exists, otherwise (predicting) dump the current
info and return early, or (training) default the two dicts when absent; then
run the accumulation block.  Partial attribute updates before an exception
are dropped by the `Except` model; the claims below only concern succeeding
runs. -/
def get_data_infoA (env : TransformersEnv) (st : Attrs) (fs : FS)
    (problem_list : List String) (base : String) (predicting : Bool) :
    Except PyError (Attrs × FS) :=
  let json_path := osJoin base ("data_info.json")
  match dictGet fs json_path with
  | some (.pydict info) =>
      match dictGet info ("data_num"), dictGet info ("num_classes") with
      | some dn, some nc =>
          let st := dictSet (dictSet st ("data_num_dict") dn)
            ("num_classes") nc
          gdiLoop env st fs problem_list json_path predicting
      | _, _ => .error .keyError
  | some _ => .error .typeError
  | none =>
      if predicting then
        match dictGet st ("data_num_dict"), dictGet st ("num_classes") with
        | some dn, some nc =>
            .ok (st, dictSet fs json_path (.pydict
              [("data_num", dn), ("num_classes", nc)]))
        | _, _ => .error .attributeError
      else
        let st := if (dictGet st ("data_num_dict")).isSome then st
          else dictSet st ("data_num_dict") (.pydict [])
        let st := if (dictGet st ("num_classes")).isSome then st
          else dictSet st ("num_classes") (.pydict [])
        gdiLoop env st fs problem_list json_path predicting

/-- The `if not predicting:` tail of `assign_problem` (lines 237-252) at the
attribute level: decode the hyper-parameters, run the schedule computation,
and store its results. -/
def assignAfterSampling (ptd : List (String × String)) (pl : List String)
    (gpu : ℕ) (predicting : Bool) (st : Attrs) (fs : FS) :
    Except PyError (Attrs × FS) :=
  if predicting then .ok (st, fs)
  else
    match (dictGet st ("data_num")).bind pyNat?,
      (dictGet st ("train_epoch")).bind pyNat?,
      (dictGet st ("dupe_factor")).bind pyNat?,
      (dictGet st ("batch_size")).bind pyNat?,
      (dictGet st ("init_lr")).bind pyFloat? with
    | some data_num, some train_epoch, some dupe_factor, some batch_size,
      some init_lr =>
        match assignSchedule (dictGet ptd) pl data_num train_epoch
          dupe_factor batch_size gpu init_lr with
        | none => .error .zeroDivisionError
        | some sch =>
            let st := dictSet st ("shuffle_buffer")
              (.pyint sch.shuffle_buffer)
            let st := dictSet st ("train_steps") (.pyint sch.train_steps)
            let st := dictSet st ("train_steps_per_epoch")
              (.pyint sch.train_steps_per_epoch)
            let st := dictSet st ("num_warmup_steps")
              (.pyint sch.num_warmup_steps)
            let st := dictSet st ("lr") (.pyfloat sch.lr)
            .ok (st, fs)
    | _, _, _, _, _ => .error .typeError

/-- The `set_data_sampling_strategy()` call of `assign_problem` (line 235)
at the attribute level: the strategy argument is the *default*
`data_balanced` whatever strategy was used before, and the result is stored
in `problem_sampling_weight_dict`.  Kept as a separate stage so that proofs
can rewrite the sampling result. -/
def assignFromSampling (ptd : List (String × String)) (pl : List String)
    (pc : List (List String)) (gpu : ℕ) (predicting : Bool) (st : Attrs)
    (fs : FS) : Except PyError (Attrs × FS) :=
  match dictGet st ("data_num_dict") with
  | none => .error .attributeError
  | some dnv =>
      match pyNatDict? dnv with
      | none => .error .typeError
      | some dnd =>
          match set_data_sampling_strategy pc (dictGet dnd)
            ("data_balanced") none with
          | .error e => .error e
          | .ok w =>
              assignAfterSampling ptd pl gpu predicting
                (dictSet st ("problem_sampling_weight_dict")
                  (encodeRatDict w)) fs

/-- The `prepare_dir` effects of `assign_problem` — the path layout of
`prepare_dir_paths` plus the env-modelled library results — followed by
`get_data_info` and the sampling stage.  `decoderTruthy` is the truthiness
of `self.transformer_decoder_model_name` (line 478), and the final decoder
tokenizer block (lines 513-531) fires when the rewritten
`transformer_decoder_tokenizer_name` is set. -/
def assignPrepare (env : TransformersEnv) (ptd : List (String × String))
    (pl : List String) (pc : List (List String)) (gpu : ℕ)
    (predicting : Bool) (paths : PrepDirPaths) (decoderTruthy : Bool)
    (st : Attrs) (fs : FS) : Except PyError (Attrs × FS) :=
  let st := dictSet st ("ckpt_dir") (.pystr paths.ckpt_dir)
  let st := dictSet st ("params_path") (.pystr paths.params_path)
  let st := dictSet st ("init_weight_from_huggingface")
    (.pybool env.initWeightFromHuggingface)
  let st := dictSet st ("bert_config") (.pyconfig env.bertConfigDict)
  match (if decoderTruthy then
      match env.decoder with
      | none => .error .typeError
      | some dec => .ok (some dec)
    else .ok none :
      Except PyError (Option (List (String × PyVal) × ℕ × ℤ × ℤ))) with
  | .error e => .error e
  | .ok decOpt =>
      let st := match decOpt with
        | some dec =>
            dictSet (dictSet st ("bert_decoder_config") (.pyconfig dec.1))
              ("bert_decoder_config_dict") (.pydict dec.1)
        | none => st
      let st := dictSet st ("transformer_config_name")
        (.pystr paths.transformer_config_name)
      let st := dictSet st ("transformer_decoder_config_name")
        (encodeOptStr paths.transformer_decoder_config_name)
      let st := dictSet st ("transformer_tokenizer_name")
        (.pystr paths.transformer_tokenizer_name)
      let st := dictSet st ("transformer_decoder_tokenizer_name")
        (encodeOptStr paths.transformer_decoder_tokenizer_name)
      let st := dictSet st ("bert_config_dict") (.pydict env.bertConfigDict)
      let st := dictSet st ("vocab_size") (.pyint env.vocabSize)
      let st := match paths.transformer_decoder_tokenizer_name,
          env.decoder with
        | some _, some dec =>
            dictSet (dictSet (dictSet st ("decoder_vocab_size")
              (.pyint dec.2.1)) ("bos_id") (.pyint dec.2.2.1))
              ("eos_id") (.pyint dec.2.2.2)
        | _, _ => st
      match get_data_infoA env st fs pl paths.ckpt_dir predicting with
      | .error e => .error e
      | .ok r => assignFromSampling ptd pl pc gpu predicting r.1 r.2

/-- `BaseParams.assign_problem` (lines 196-252) at the attribute level:
store the call details, parse the problem string (storing `problem_str`,
`run_problem_list`, the `train_problem` default, `problem_list` and
`problem_chunk`), run the `prepare_dir` path layout plus the env-modelled
library effects, run `get_data_info`, then the sampling and schedule stages.
The insertion order of freshly created attributes approximates the source's
assignment order. -/
def assign_problemA (env : TransformersEnv) (st : Attrs) (fs : FS)
    (flag_string : String) (gpu : ℕ) (base_dir dir_name : Option String)
    (predicting : Bool) : Except PyError (Attrs × FS) :=
  let st := dictSet st ("assigned_details")
    (.pylist [.pystr flag_string, .pyint gpu, encodeOptStr base_dir,
      encodeOptStr dir_name, .pybool predicting])
  let st := dictSet st ("problem_assigned") (.pybool true)
  let st := dictSet st ("predicting") (.pybool predicting)
  match dictGet st ("problem_type") with
  | none => .error .attributeError
  | some ptv =>
      match pyStrDict? ptv with
      | none => .error .typeError
      | some ptd =>
          match parse_problem_string (dictGet ptd) flag_string with
          | none => .error .keyError
          | some (pl, pc, rpl) =>
              let st := dictSet st ("problem_str") (.pystr flag_string)
              let st := dictSet st ("run_problem_list")
                (encodeRunProblemList rpl)
              match dictGet st ("train_problem") with
              | none => .error .attributeError
              | some tp =>
                  let st := if isPyNull tp then
                      dictSet st ("train_problem") (encodeRunProblemList rpl)
                    else st
                  let st := dictSet st ("problem_list") (encodeStrList pl)
                  let st := dictSet st ("problem_chunk") (encodeChunks pc)
                  match dictGet st ("transformer_decoder_config_name"),
                    dictGet st ("transformer_decoder_tokenizer_name"),
                    dictGet st ("transformer_decoder_model_name") with
                  | some dcnv, some dtnv, some dmnv =>
                      match pyOptStr? dcnv, pyOptStr? dtnv with
                      | some dcn, some dtn =>
                          assignPrepare env ptd pl pc gpu predicting
                            (prepare_dir_paths base_dir dir_name pl dcn dtn)
                            (pyTruthy dmnv) st fs
                      | _, _ => .error .typeError
                  | _, _, _ => .error .attributeError

/-- Decode the stored `assigned_details` tuple
`(flag_string, gpu, base_dir, dir_name, predicting)` (JSON turns the Python
tuple into a list). -/
def decodeDetails : PyVal →
    Option (String × ℕ × Option String × Option String × Bool)
  | .pylist [.pystr flag, .pyint gpu, b, d, .pybool pred] =>
      if 0 ≤ gpu then
        match pyOptStr? b, pyOptStr? d with
        | some bo, some dopt => some (flag, gpu.toNat, bo, dopt, pred)
        | _, _ => none
      else none
  | _ => none

/-- `BaseParams.from_json` (lines 268-300) at the attribute level: resolve
the path (the explicit `json_path` argument, else `self.params_path`),
capture `assigned_details` when `self.problem_assigned` is truthy, read the
file and `setattr` every saved attribute, rebuild `bert_config` from the
loaded `bert_config_dict` (and `bert_decoder_config` when a decoder dict is
present), and finally re-run `assign_problem` with the captured details. -/
def from_jsonA (env : TransformersEnv) (st : Attrs) (fs : FS)
    (json_path : Option String) : Except PyError (Attrs × FS) :=
  match (match json_path with
    | some p => .ok p
    | none =>
        match dictGet st ("params_path") with
        | some (.pystr p) => .ok p
        | some _ => .error .typeError
        | none => .error .attributeError : Except PyError String) with
  | .error e => .error e
  | .ok p =>
      match dictGet st ("problem_assigned") with
      | none => .error .attributeError
      | some pav =>
          match (if pyTruthy pav then
              match dictGet st ("assigned_details") with
              | none => .error .attributeError
              | some adv =>
                  match decodeDetails adv with
                  | none => .error .typeError
                  | some details => .ok (some details)
            else .ok none :
              Except PyError
                (Option (String × ℕ × Option String × Option String ×
                  Bool))) with
          | .error e => .error e
          | .ok details =>
              match dictGet fs p with
              | none => .error .fileNotFoundError
              | some (.pydict dump) =>
                  let st := dump.foldl (fun s kv => dictSet s kv.1 kv.2) st
                  match dictGet st ("bert_config_dict") with
                  | some (.pydict bcd) =>
                      let st := dictSet st ("bert_config") (.pyconfig bcd)
                      match (match dictGet st ("bert_decoder_config_dict")
                          with
                        | some (.pydict bdcd) =>
                            .ok (dictSet st ("bert_decoder_config")
                              (.pyconfig bdcd))
                        | some _ => .error .typeError
                        | none => .ok st : Except PyError Attrs) with
                      | .error e => .error e
                      | .ok st =>
                          match details with
                          | none => .ok (st, fs)
                          | some det =>
                              assign_problemA env st fs det.1 det.2.1
                                det.2.2.1 det.2.2.2.1 det.2.2.2.2
                  | some _ => .error .typeError
                  | none => .error .attributeError
              | some _ => .error .typeError

theorem dictGet_eq_none {α : Type} (d : List (String × α)) (k : String)
    (h : k ∉ dictKeys d) : dictGet d k = none := by
  induction d with
  | nil => rfl
  | cons hd tl ih =>
      obtain ⟨k0, v0⟩ := hd
      simp only [dictKeys, List.map_cons, List.mem_cons, not_or] at h
      rw [dictGet, if_neg (fun he => h.1 he.symm)]
      exact ih (by simpa [dictKeys] using h.2)

/-- The `for att in dump_dict: setattr(self, att, dump_dict[att])` loop of
`from_json`: with the unique keys of a JSON object, every saved attribute
ends at its saved value and the others keep their previous value. -/
theorem dictGet_foldl_dictSet (dump : List (String × PyVal)) :
    ∀ st : Attrs, (dump.map Prod.fst).Nodup → ∀ k,
      dictGet (dump.foldl (fun s kv => dictSet s kv.1 kv.2) st) k =
        if (dictGet dump k).isSome then dictGet dump k else dictGet st k := by
  induction dump with
  | nil =>
      intro st _ k
      simp [dictGet]
  | cons kv rest ih =>
      intro st hnodup k
      obtain ⟨k0, v0⟩ := kv
      simp only [List.map_cons, List.nodup_cons] at hnodup
      show dictGet (rest.foldl (fun s kv => dictSet s kv.1 kv.2)
        (dictSet st k0 v0)) k = _
      rw [ih (dictSet st k0 v0) hnodup.2 k]
      by_cases hk0 : k0 = k
      · subst hk0
        have hnone : dictGet rest k0 = none :=
          dictGet_eq_none rest k0 hnodup.1
        rw [hnone]
        simp only [Option.isSome_none, Bool.false_eq_true, if_false]
        rw [dictGet_dictSet_self]
        simp [dictGet]
      · rw [show dictGet ((k0, v0) :: rest) k = dictGet rest k from by
          rw [dictGet, if_neg hk0]]
        cases hr : dictGet rest k with
        | some v => simp
        | none => simp [dictGet_dictSet_ne st k0 k v0 (fun h => hk0 h.symm)]

theorem assignAfterSampling_weight_dict (ptd : List (String × String))
    (pl : List String) (gpu : ℕ) (st : Attrs) (fs : FS) (st2 : Attrs)
    (fs2 : FS)
    (h : assignAfterSampling ptd pl gpu false st fs = .ok (st2, fs2)) :
    dictGet st2 ("problem_sampling_weight_dict") =
      dictGet st ("problem_sampling_weight_dict") := by
  rw [assignAfterSampling] at h
  simp only [Bool.false_eq_true, if_false] at h
  split at h
  · split at h
    · cases h
    · simp only [Except.ok.injEq, Prod.mk.injEq] at h
      rw [← h.1]
      rw [dictGet_dictSet_ne _ _ _ _ (by decide),
        dictGet_dictSet_ne _ _ _ _ (by decide),
        dictGet_dictSet_ne _ _ _ _ (by decide),
        dictGet_dictSet_ne _ _ _ _ (by decide),
        dictGet_dictSet_ne _ _ _ _ (by decide)]
  · cases h

theorem assignFromSampling_eq (ptd : List (String × String))
    (pl : List String) (pc : List (List String)) (gpu : ℕ)
    (predicting : Bool) (st : Attrs) (fs : FS) (dnv : PyVal)
    (dnd : List (String × ℕ)) (w : List (String × ℚ))
    (h1 : dictGet st ("data_num_dict") = some dnv)
    (h2 : pyNatDict? dnv = some dnd)
    (h3 : set_data_sampling_strategy pc (dictGet dnd) ("data_balanced")
      none = .ok w) :
    assignFromSampling ptd pl pc gpu predicting st fs =
      assignAfterSampling ptd pl gpu predicting
        (dictSet st ("problem_sampling_weight_dict") (encodeRatDict w))
        fs := by
  rw [assignFromSampling, h1]
  show (match pyNatDict? dnv with
    | none => (.error .typeError : Except PyError (Attrs × FS))
    | some dnd => _) = _
  rw [h2]
  show (match set_data_sampling_strategy pc (dictGet dnd) ("data_balanced")
      none with
    | .error e => (.error e : Except PyError (Attrs × FS))
    | .ok w =>
        assignAfterSampling ptd pl gpu predicting
          (dictSet st ("problem_sampling_weight_dict") (encodeRatDict w))
          fs) = _
  rw [h3]

/-- The transformers environment of the round-trip example: no decoder, an
empty encoder config dict, and `read_data_fn` results that are never needed
(`data_info.json` already has every count). -/
def rtEnv : TransformersEnv :=
  { bertConfigDict := [],
    vocabSize := 100,
    initWeightFromHuggingface := false,
    decoder := none,
    readData := fun _ => (0, .pynull) }

/-- A `BaseParams` object right after `assign_problem('a|b', gpu=2)` —
problems `a` and `b` of type `cls` with 1 and 3 data rows — followed by a
user call to `set_data_sampling_strategy('problem_balanced')`, which stored
the weights `{a: 1/2, b: 1/2}`. -/
def rtSt : Attrs :=
  [("run_problem_list", encodeRunProblemList [[("a", "cls")], [("b", "cls")]]),
    ("problem_type", .pydict [("a", .pystr ("cls")), ("b", .pystr ("cls"))]),
    ("transformer_model_name", .pystr ("bert-base-chinese")),
    ("transformer_tokenizer_name", .pystr ("models/a_b_ckpt/tokenizer")),
    ("transformer_config_name", .pystr ("models/a_b_ckpt/bert_config")),
    ("transformer_decoder_model_name", .pynull),
    ("transformer_decoder_config_name", .pynull),
    ("transformer_decoder_tokenizer_name", .pynull),
    ("init_checkpoint", .pystr ("")),
    ("multitask_balance_type", .pystr ("data_balanced")),
    ("init_lr", .pyfloat (1 / 50000)),
    ("batch_size", .pyint 32),
    ("train_epoch", .pyint 15),
    ("dupe_factor", .pyint 10),
    ("train_problem", encodeRunProblemList [[("a", "cls")], [("b", "cls")]]),
    ("read_data_fn", .pydict [("a", .pycallable 0), ("b", .pycallable 1)]),
    ("problem_assigned", .pybool true),
    ("predicting", .pybool false),
    ("assigned_details", .pylist [.pystr ("a|b"), .pyint 2, .pynull, .pynull,
      .pybool false]),
    ("problem_list", encodeStrList ["a", "b"]),
    ("problem_chunk", encodeChunks [["a"], ["b"]]),
    ("problem_str", .pystr ("a|b")),
    ("ckpt_dir", .pystr ("models/a_b_ckpt")),
    ("params_path", .pystr ("models/a_b_ckpt/params.json")),
    ("init_weight_from_huggingface", .pybool false),
    ("bert_config", .pyconfig []),
    ("bert_config_dict", .pydict []),
    ("vocab_size", .pyint 100),
    ("data_num_dict", .pydict [("a", .pyint 1), ("b", .pyint 3)]),
    ("num_classes", .pydict [("a", .pyint 2), ("b", .pyint 2)]),
    ("data_num", .pyint 4),
    ("shuffle_buffer", .pyint 4),
    ("train_steps", .pyint 0),
    ("train_steps_per_epoch", .pyint 0),
    ("num_warmup_steps", .pyint 0),
    ("lr", .pyfloat (1 / 25000)),
    ("problem_sampling_weight_dict", .pydict [("a", .pyfloat (1 / 2)),
      ("b", .pyfloat (1 / 2))])]

/-- The checkpoint directory written by the original `assign_problem` run:
it already holds `data_info.json`. -/
def rtFs : FS :=
  [("models/a_b_ckpt/data_info.json", .pydict
    [("data_num", .pydict [("a", .pyint 1), ("b", .pyint 3)]),
      ("num_classes", .pydict [("a", .pyint 2), ("b", .pyint 2)])])]

/-- The filesystem after `to_json` on `rtSt`. -/
def rtFs1 : FS :=
  dictSet rtFs ("models/a_b_ckpt/params.json")
    (.pydict (rtSt.filter fun kv => jsonOk kv.2))

/-- Claim C7 as stated: after `to_json` writes the file and `from_json` is
called on that file's path, every attribute that was saved is restored to
its saved value. -/
def roundTripRestoresAll (env : TransformersEnv) : Prop :=
  ∀ (st : Attrs) (fs fs1 : FS) (p : String) (dump : List (String × PyVal))
    (st2 : Attrs) (fs2 : FS),
    dictGet st ("params_path") = some (.pystr p) →
    to_json st fs = .ok fs1 →
    dictGet fs1 p = some (.pydict dump) →
    from_jsonA env st fs1 (some p) = .ok (st2, fs2) →
    ∀ k v, dictGet dump k = some v → dictGet st2 k = some v

set_option maxRecDepth 40000 in
set_option maxHeartbeats 2000000 in
/-- Counterexample to **C7** as stated: on `rtSt`, `to_json` saves the
`problem_balanced` weights `{a: 1/2, b: 1/2}`; `from_json` restores them but
then re-runs `assign_problem`, whose `set_data_sampling_strategy()` call
uses the *default* `data_balanced` strategy and overwrites the restored
attribute with `{a: 1/4, b: 3/4}`. -/
theorem from_json_round_trip_cx : ¬ roundTripRestoresAll rtEnv := by
  intro hclaim
  have hw : set_data_sampling_strategy [["a"], ["b"]]
      (dictGet [("a", 1), ("b", 3)]) ("data_balanced") none =
      .ok [("a", ((1 : ℕ) : ℚ) / sumValues [("a", ((1 : ℕ) : ℚ)),
          ("b", ((3 : ℕ) : ℚ))]),
        ("b", ((3 : ℕ) : ℚ) / sumValues [("a", ((1 : ℕ) : ℚ)),
          ("b", ((3 : ℕ) : ℚ))])] := by
    rw [set_data_eval]
    rw [show samplingNumerators [["a"], ["b"]] (dictGet [("a", 1), ("b", 3)])
      ("data_balanced") = .ok [("a", ((1 : ℕ) : ℚ)), ("b", ((3 : ℕ) : ℚ))]
      from rfl]
    show (if ([("a", ((1 : ℕ) : ℚ)), ("b", ((3 : ℕ) : ℚ))] :
      List (String × ℚ)) = [] then _ else _) = _
    rw [if_neg (by simp), if_neg (by norm_num [sumValues])]
    rfl
  have heq : from_jsonA rtEnv rtSt rtFs1
      (some ("models/a_b_ckpt/params.json")) =
      assignFromSampling [("a", "cls"), ("b", "cls")] ["a", "b"]
        [["a"], ["b"]] 2 false rtSt rtFs1 := rfl
  have hdn : dictGet rtSt ("data_num_dict") =
      some (.pydict [("a", .pyint 1), ("b", .pyint 3)]) := rfl
  have hmid := assignFromSampling_eq [("a", "cls"), ("b", "cls")] ["a", "b"]
    [["a"], ["b"]] 2 false rtSt rtFs1 _ _ _ hdn rfl hw
  have hpost : ∃ st2 fs2, assignAfterSampling [("a", "cls"), ("b", "cls")]
      ["a", "b"] 2 false
      (dictSet rtSt ("problem_sampling_weight_dict")
        (encodeRatDict [("a", ((1 : ℕ) : ℚ) /
            sumValues [("a", ((1 : ℕ) : ℚ)), ("b", ((3 : ℕ) : ℚ))]),
          ("b", ((3 : ℕ) : ℚ) /
            sumValues [("a", ((1 : ℕ) : ℚ)), ("b", ((3 : ℕ) : ℚ))])]))
      rtFs1 = .ok (st2, fs2) :=
    ⟨_, _, rfl⟩
  obtain ⟨st2, fs2, hpost'⟩ := hpost
  have hfinal : from_jsonA rtEnv rtSt rtFs1
      (some ("models/a_b_ckpt/params.json")) = .ok (st2, fs2) := by
    rw [heq, hmid, hpost']
  have hafter : dictGet st2 ("problem_sampling_weight_dict") =
      some (encodeRatDict [("a", ((1 : ℕ) : ℚ) /
          sumValues [("a", ((1 : ℕ) : ℚ)), ("b", ((3 : ℕ) : ℚ))]),
        ("b", ((3 : ℕ) : ℚ) /
          sumValues [("a", ((1 : ℕ) : ℚ)), ("b", ((3 : ℕ) : ℚ))])]) := by
    rw [assignAfterSampling_weight_dict _ _ _ _ _ _ _ hpost',
      dictGet_dictSet_self]
  have hres := hclaim rtSt rtFs rtFs1 ("models/a_b_ckpt/params.json")
    (rtSt.filter fun kv => jsonOk kv.2) st2 fs2 rfl rfl
    (dictGet_dictSet_self rtFs _ _) hfinal
    ("problem_sampling_weight_dict")
    (.pydict [("a", .pyfloat (1 / 2)), ("b", .pyfloat (1 / 2))]) rfl
  rw [hres] at hafter
  simp only [Option.some_inj, encodeRatDict, List.map_cons, List.map_nil,
    PyVal.pydict.injEq, List.cons.injEq, Prod.mk.injEq,
    PyVal.pyfloat.injEq] at hafter
  have hbad := hafter.1.2
  norm_num [sumValues] at hbad

/-- **C7** (amended): `from_json` sets every attribute saved by `to_json`
back to its saved value during the load loop.  When the object had **no**
problem assigned, those values persist to the end of the call and the
unsaved attributes keep their pre-call values — except `bert_config` (and
`bert_decoder_config` when a decoder dict was loaded), which are always
recomputed from the loaded config dicts.  When a problem *was* assigned,
`assign_problem` is re-run afterwards and may overwrite restored
attributes, as the counterexample shows for
`problem_sampling_weight_dict`. -/
theorem from_json_restores_unassigned (env : TransformersEnv) (st : Attrs)
    (fs : FS) (p : String) (dump : List (String × PyVal)) (st2 : Attrs)
    (fs2 : FS) (pav : PyVal)
    (hpa : dictGet st ("problem_assigned") = some pav)
    (hpat : pyTruthy pav = false)
    (hread : dictGet fs p = some (.pydict dump))
    (hnodup : (dump.map Prod.fst).Nodup)
    (hrun : from_jsonA env st fs (some p) = .ok (st2, fs2)) :
    (∀ k v, dictGet dump k = some v →
      k ≠ "bert_config" → k ≠ "bert_decoder_config" →
      dictGet st2 k = some v) ∧
    (∀ k, dictGet dump k = none →
      k ≠ "bert_config" → k ≠ "bert_decoder_config" →
      dictGet st2 k = dictGet st k) := by
  unfold from_jsonA at hrun
  simp only [hpa, hpat, hread, Bool.false_eq_true, if_false] at hrun
  split at hrun
  · split at hrun
    · cases hrun
    · rename_i x heq
      split at heq
      · simp only [Except.ok.injEq, Prod.mk.injEq] at hrun
        obtain ⟨h1, h2⟩ := hrun
        simp only [Except.ok.injEq] at heq
        constructor
        · intro k v hkv hk1 hk2
          rw [← h1, ← heq]
          rw [dictGet_dictSet_ne _ _ _ _ hk2, dictGet_dictSet_ne _ _ _ _ hk1]
          rw [dictGet_foldl_dictSet dump st hnodup k, hkv]
          simp
        · intro k hk hk1 hk2
          rw [← h1, ← heq]
          rw [dictGet_dictSet_ne _ _ _ _ hk2, dictGet_dictSet_ne _ _ _ _ hk1]
          rw [dictGet_foldl_dictSet dump st hnodup k, hk]
          simp
      · cases heq
      · simp only [Except.ok.injEq, Prod.mk.injEq] at hrun
        obtain ⟨h1, h2⟩ := hrun
        simp only [Except.ok.injEq] at heq
        constructor
        · intro k v hkv hk1 hk2
          rw [← h1, ← heq]
          rw [dictGet_dictSet_ne _ _ _ _ hk1]
          rw [dictGet_foldl_dictSet dump st hnodup k, hkv]
          simp
        · intro k hk hk1 hk2
          rw [← h1, ← heq]
          rw [dictGet_dictSet_ne _ _ _ _ hk1]
          rw [dictGet_foldl_dictSet dump st hnodup k, hk]
          simp
  · cases hrun
  · cases hrun

/-- Attribute state of the witness for the amended C7: not assigned, one
unsaved attribute `x`. -/
def wUnassignedSt : Attrs :=
  [("problem_assigned", .pybool false), ("x", .pyint 5)]

/-- Filesystem of the witness for the amended C7. -/
def wUnassignedFs : FS :=
  [("p.json", .pydict [("y", .pystr ("z")),
    ("bert_config_dict", .pydict [])])]

/-- Result state of the witness for the amended C7. -/
def wUnassignedSt2 : Attrs :=
  [("problem_assigned", .pybool false), ("x", .pyint 5),
    ("y", .pystr ("z")), ("bert_config_dict", .pydict []),
    ("bert_config", .pyconfig [])]

/-- Witness for the amended C7: the non-assigned object restores the saved
attribute `y` and keeps the unsaved attribute `x`. -/
theorem from_json_restores_unassigned_witness :
    from_jsonA rtEnv wUnassignedSt wUnassignedFs (some ("p.json")) =
      .ok (wUnassignedSt2, wUnassignedFs) ∧
    dictGet wUnassignedSt2 ("y") = some (.pystr ("z")) ∧
    dictGet wUnassignedSt2 ("x") = some (.pyint 5) :=
  ⟨rfl,
    (from_json_restores_unassigned rtEnv wUnassignedSt wUnassignedFs
        ("p.json") [("y", .pystr ("z")), ("bert_config_dict", .pydict [])]
        wUnassignedSt2 wUnassignedFs (.pybool false) rfl rfl rfl
        (by decide) rfl).1 "y" (.pystr ("z")) rfl (by decide) (by decide),
    by
      rw [(from_json_restores_unassigned rtEnv wUnassignedSt wUnassignedFs
        ("p.json") [("y", .pystr ("z")), ("bert_config_dict", .pydict [])]
        wUnassignedSt2 wUnassignedFs (.pybool false) rfl rfl rfl
        (by decide) rfl).2 "x" rfl (by decide) (by decide)]
      rfl⟩
